import Mathlib

/-!
Shallow embedding of the rowt-ui dashboard client (TypeScript) in Lean 4.

The embedding translates the client-side logic that the specification's
claims are about:

* JavaScript-style string primitives (`toLowerCase`, `trim`, `includes`,
  truthiness) used throughout the components;
* a JSON value model together with `JSON.stringify` (compact and
  2-space-indented) and `JSON.parse`, which the metadata editors and the
  submission-size gate rely on (numeric literals are modelled as integers:
  no claim touches float formatting);
* `LinkFormComponent.handleSubmit`'s metadata-size gate
  (`validateJsonSize`);
* the social-metadata editor's `syncFieldsToJson` / `syncJsonToFields`
  mode-switch synchronisation;
* `LinkListComponent.applyFilters`, `handleSort` and the
  `ApiClient.getLinks` filter/sort/paginate pipeline;
* `LinkManagerComponent.handleBulkDelete`;
* `AuthService.checkAuthStatus` / `logout` and `App.checkAuthStatus`;
* the `EventEmitter` publish/subscribe primitive.

Asynchronous calls are modelled by passing the outcome of each awaited
operation as an explicit argument (an `Except`/`Bool` oracle), and DOM
state (input values, textarea content, visible screen) is modelled as
plain data.
-/

namespace RowtUI

/-! ## JavaScript string and value primitives -/

/-- Lower-casing of a single character as `String.prototype.toLowerCase`
performs it on the ASCII range (the components only compare ASCII search
text). -/
def lowerChar (c : Char) : Char :=
  if 'A' ≤ c ∧ c ≤ 'Z' then Char.ofNat (c.toNat + 32) else c

/-- Model of `String.prototype.toLowerCase`. -/
def jsToLower (s : String) : String := ⟨s.data.map lowerChar⟩

/-- Auxiliary contiguous-sublist test on character lists. -/
def subListIn (needle hay : List Char) : Bool :=
  match hay with
  | [] => needle.isEmpty
  | _ :: t => needle.isPrefixOf hay || subListIn needle t

/-- Model of `String.prototype.includes`: `jsIncludes hay needle` is true
iff `needle` occurs contiguously in `hay`. -/
def jsIncludes (hay needle : String) : Bool := subListIn needle.data hay.data

/-- Whitespace as trimmed by `String.prototype.trim` (the components only
feed it ASCII, where the JS definition coincides with `c ≤ ' '`). -/
def isWsChar (c : Char) : Bool := c ≤ ' '

/-- Model of `String.prototype.trim`. -/
def jsTrim (s : String) : String :=
  ⟨((s.data.dropWhile isWsChar).reverse.dropWhile isWsChar).reverse⟩

/-- JavaScript `a || b` on an optional string: an absent or empty (falsy)
string falls back to the default. -/
def jsOrStr (o : Option String) (d : String) : String :=
  match o with
  | some s => if s = "" then d else s
  | none => d

/-- JavaScript `a || b` on an optional number (`0` is falsy). -/
def jsOrNat (o : Option Nat) (d : Nat) : Nat :=
  match o with
  | some n => if n = 0 then d else n
  | none => d

/-! ## JSON value model

`Json` models the values produced by `JSON.parse` and consumed by
`JSON.stringify`.  Objects keep their fields in insertion order, as
JavaScript objects do for string keys. -/

inductive Json where
  | null
  | bool (b : Bool)
  | num (n : Int)
  | str (s : String)
  | arr (items : List Json)
  | obj (fields : List (String × Json))

/-- Character `{`, kept as a named constant. -/
def lbraceChar : Char := Char.ofNat 123

/-- Character `}`, kept as a named constant. -/
def rbraceChar : Char := Char.ofNat 125

/-- Hexadecimal digit used by `JSON.stringify`'s `\u00xx` escapes. -/
def hexDigit (n : Nat) : Char :=
  if n < 10 then Char.ofNat ('0'.toNat + n) else Char.ofNat ('a'.toNat + (n - 10))

/-- Escaping of one character inside a JSON string literal, as
`JSON.stringify` performs it. -/
def escapeChar (c : Char) : List Char :=
  if c = '"' then ['\\', '"']
  else if c = '\\' then ['\\', '\\']
  else if c = Char.ofNat 8 then ['\\', 'b']
  else if c = Char.ofNat 9 then ['\\', 't']
  else if c = Char.ofNat 10 then ['\\', 'n']
  else if c = Char.ofNat 12 then ['\\', 'f']
  else if c = Char.ofNat 13 then ['\\', 'r']
  else if c.toNat < 32 then
    ['\\', 'u', '0', '0', hexDigit (c.toNat / 16), hexDigit (c.toNat % 16)]
  else [c]

/-- Escaping of a whole string body. -/
def escapeList (cs : List Char) : List Char := (cs.map escapeChar).flatten

/-- JSON string literal (quotes included) for `s`. -/
def quoteChars (s : String) : List Char := '"' :: escapeList s.data ++ ['"']

mutual

/-- Compact serialization, `JSON.stringify(v)`. -/
def stringifyChars : Json → List Char
  | .null => "null".data
  | .bool true => "true".data
  | .bool false => "false".data
  | .num n => (toString n).data
  | .str s => quoteChars s
  | .arr items => '[' :: stringifyArr items ++ [']']
  | .obj fields => lbraceChar :: stringifyFields fields ++ [rbraceChar]

/-- Comma-separated compact serialization of array items. -/
def stringifyArr : List Json → List Char
  | [] => []
  | [x] => stringifyChars x
  | x :: y :: rest => stringifyChars x ++ ',' :: stringifyArr (y :: rest)

/-- Comma-separated compact serialization of object members. -/
def stringifyFields : List (String × Json) → List Char
  | [] => []
  | [(k, v)] => quoteChars k ++ ':' :: stringifyChars v
  | (k, v) :: m :: rest =>
      quoteChars k ++ ':' :: stringifyChars v ++ ',' :: stringifyFields (m :: rest)

end

/-- Model of `JSON.stringify(v)` (compact form). -/
def jsonStringify (v : Json) : String := ⟨stringifyChars v⟩

/-- Indentation of `2 * level` spaces used by `JSON.stringify(v, null, 2)`. -/
def indentChars (level : Nat) : List Char := List.replicate (2 * level) ' '

mutual

/-- Pretty serialization at nesting `level`, `JSON.stringify(v, null, 2)`. -/
def prettyChars (level : Nat) : Json → List Char
  | .null => "null".data
  | .bool true => "true".data
  | .bool false => "false".data
  | .num n => (toString n).data
  | .str s => quoteChars s
  | .arr [] => ['[', ']']
  | .arr (x :: xs) =>
      '[' :: '\n' :: prettyItems (level + 1) (x :: xs) ++
        '\n' :: indentChars level ++ [']']
  | .obj [] => [lbraceChar, rbraceChar]
  | .obj (f :: fs) =>
      lbraceChar :: '\n' :: prettyFields (level + 1) (f :: fs) ++
        '\n' :: indentChars level ++ [rbraceChar]

/-- Pretty array items, one per line. -/
def prettyItems (level : Nat) : List Json → List Char
  | [] => []
  | [x] => indentChars level ++ prettyChars level x
  | x :: y :: rest =>
      indentChars level ++ prettyChars level x ++ ',' :: '\n' ::
        prettyItems level (y :: rest)

/-- Pretty object members, one `"key": value` per line. -/
def prettyFields (level : Nat) : List (String × Json) → List Char
  | [] => []
  | [(k, v)] => indentChars level ++ quoteChars k ++ ':' :: ' ' :: prettyChars level v
  | (k, v) :: m :: rest =>
      indentChars level ++ quoteChars k ++ ':' :: ' ' :: prettyChars level v ++
        ',' :: '\n' :: prettyFields level (m :: rest)

end

/-- Model of `JSON.stringify(v, null, 2)`. -/
def jsonStringify2 (v : Json) : String := ⟨prettyChars 0 v⟩

/-! ## JSON parsing (`JSON.parse`)

The parser is a fuel-indexed recursive-descent reader of the JSON
grammar; the fuel only bounds the nesting of composite values, and the
top-level entry point supplies enough fuel for any input of the given
length. -/

/-- Whitespace accepted between JSON tokens by `JSON.parse`. -/
def isJsonWs (c : Char) : Bool :=
  c = ' ' || c = Char.ofNat 9 || c = Char.ofNat 10 || c = Char.ofNat 13

/-- Drop leading JSON whitespace. -/
def skipWs (cs : List Char) : List Char := cs.dropWhile isJsonWs

/-- Value of one hexadecimal digit of a `\uXXXX` escape. -/
def parseHexDigit (c : Char) : Option Nat :=
  if '0' ≤ c ∧ c ≤ '9' then some (c.toNat - '0'.toNat)
  else if 'a' ≤ c ∧ c ≤ 'f' then some (c.toNat - 'a'.toNat + 10)
  else if 'A' ≤ c ∧ c ≤ 'F' then some (c.toNat - 'A'.toNat + 10)
  else none

/-- String-literal body scanner (after the opening quote): decodes escape
sequences, rejects raw control characters, and returns the decoded string
together with the input after the closing quote. -/
def scanStr (acc : List Char) : List Char → Option (String × List Char)
  | [] => none
  | c :: rest =>
    if c = '"' then some (⟨acc.reverse⟩, rest)
    else if c = '\\' then
      match rest with
      | [] => none
      | e :: rest2 =>
        if e = '"' then scanStr ('"' :: acc) rest2
        else if e = '\\' then scanStr ('\\' :: acc) rest2
        else if e = '/' then scanStr ('/' :: acc) rest2
        else if e = 'b' then scanStr (Char.ofNat 8 :: acc) rest2
        else if e = 'f' then scanStr (Char.ofNat 12 :: acc) rest2
        else if e = 'n' then scanStr (Char.ofNat 10 :: acc) rest2
        else if e = 'r' then scanStr (Char.ofNat 13 :: acc) rest2
        else if e = 't' then scanStr (Char.ofNat 9 :: acc) rest2
        else if e = 'u' then
          match rest2 with
          | h1 :: h2 :: h3 :: h4 :: rest3 =>
            match parseHexDigit h1, parseHexDigit h2,
                parseHexDigit h3, parseHexDigit h4 with
            | some a, some b, some c2, some d =>
                scanStr (Char.ofNat (((a * 16 + b) * 16 + c2) * 16 + d) :: acc) rest3
            | _, _, _, _ => none
          | _ => none
        else none
    else if c.toNat < 32 then none
    else scanStr (c :: acc) rest

/-- Decimal digit test. -/
def isDigitChar (c : Char) : Bool := '0' ≤ c ∧ c ≤ '9'

/-- Integer-literal scanner: an optional minus sign followed by one or
more digits.  Fraction/exponent forms are outside the modelled fragment
and are rejected rather than misread. -/
def scanInt (cs : List Char) : Option (Int × List Char) :=
  let negAndTail : Bool × List Char :=
    match cs with
    | '-' :: t => (true, t)
    | _ => (false, cs)
  let neg := negAndTail.1
  let cs1 := negAndTail.2
  let digits := cs1.takeWhile isDigitChar
  let rest := cs1.dropWhile isDigitChar
  if digits.isEmpty then none
  else
    let n : Nat := digits.foldl (fun a c => a * 10 + (c.toNat - '0'.toNat)) 0
    let val : Int := if neg then -(n : Int) else (n : Int)
    match rest with
    | c :: _ => if c = '.' || c = 'e' || c = 'E' then none else some (val, rest)
    | [] => some (val, rest)

mutual

/-- Parse one JSON value; returns it with the unconsumed input. -/
def parseVal : Nat → List Char → Option (Json × List Char)
  | 0, _ => none
  | fuel + 1, cs =>
    match skipWs cs with
    | [] => none
    | c :: rest =>
      if c = '"' then
        match scanStr [] rest with
        | some (s, r) => some (.str s, r)
        | none => none
      else if c = lbraceChar then
        match skipWs rest with
        | c2 :: r2 =>
            if c2 = rbraceChar then some (.obj [], r2)
            else parseMembers fuel (c2 :: r2) []
        | [] => none
      else if c = '[' then
        match skipWs rest with
        | c2 :: r2 =>
            if c2 = ']' then some (.arr [], r2)
            else parseItems fuel (c2 :: r2) []
        | [] => none
      else if c = 't' then
        match rest with
        | 'r' :: 'u' :: 'e' :: r => some (.bool true, r)
        | _ => none
      else if c = 'f' then
        match rest with
        | 'a' :: 'l' :: 's' :: 'e' :: r => some (.bool false, r)
        | _ => none
      else if c = 'n' then
        match rest with
        | 'u' :: 'l' :: 'l' :: r => some (.null, r)
        | _ => none
      else
        match scanInt (c :: rest) with
        | some (n, r) => some (.num n, r)
        | none => none

/-- Parse the members of a non-empty object (input begins at the first
member's key). -/
def parseMembers : Nat → List Char → List (String × Json) → Option (Json × List Char)
  | 0, _, _ => none
  | fuel + 1, cs, acc =>
    match skipWs cs with
    | c :: rest =>
      if c = '"' then
        match scanStr [] rest with
        | some (k, r1) =>
          match skipWs r1 with
          | c2 :: r2 =>
            if c2 = ':' then
              match parseVal fuel r2 with
              | some (v, r3) =>
                match skipWs r3 with
                | c3 :: r4 =>
                  if c3 = ',' then parseMembers fuel r4 (acc ++ [(k, v)])
                  else if c3 = rbraceChar then some (.obj (acc ++ [(k, v)]), r4)
                  else none
                | [] => none
              | none => none
            else none
          | [] => none
        | none => none
      else none
    | [] => none

/-- Parse the items of a non-empty array (input begins at the first
item). -/
def parseItems : Nat → List Char → List Json → Option (Json × List Char)
  | 0, _, _ => none
  | fuel + 1, cs, acc =>
    match parseVal fuel cs with
    | some (v, r) =>
      match skipWs r with
      | c :: r2 =>
        if c = ',' then parseItems fuel r2 (acc ++ [v])
        else if c = ']' then some (.arr (acc ++ [v]), r2)
        else none
      | [] => none
    | none => none

end

/-- Model of `JSON.parse`: parse one value, require only whitespace after
it; `none` models the `SyntaxError` throw. -/
def jsonParse (s : String) : Option Json :=
  match parseVal (s.data.length + 1) s.data with
  | some (v, rest) => if (skipWs rest).isEmpty then some v else none
  | none => none

/-! ## JavaScript object semantics over parsed JSON values -/

/-- Number of keys `Object.keys(v)` reports: object fields, array or
string indices, nothing for other primitives. -/
def jsKeysCount : Json → Nat
  | .obj fields => fields.length
  | .arr items => items.length
  | .str s => s.length
  | _ => 0

/-- JavaScript truthiness of a parsed JSON value. -/
def jsTruthy : Json → Bool
  | .null => false
  | .bool b => b
  | .num n => n ≠ 0
  | .str s => s ≠ ""
  | .arr _ => true
  | .obj _ => true

/-- Property read `v[key]` (`none` models `undefined`); with duplicate
keys the last occurrence wins, as in a JavaScript object literal. -/
def jsonGet (j : Json) (k : String) : Option Json :=
  match j with
  | .obj fields => ((fields.filter (fun f => f.1 = k)).getLast?).map (fun f => f.2)
  | _ => none

mutual

/-- String coercion `String(v)` applied when a JSON value is written into
an input's `value`. -/
def jsCoerceStr : Json → String
  | .null => "null"
  | .bool true => "true"
  | .bool false => "false"
  | .num n => toString n
  | .str s => s
  | .arr items => jsJoinComma items
  | .obj _ => "[object Object]"

/-- Array `toString`: elements joined with commas, `null` rendering
empty. -/
def jsJoinComma : List Json → String
  | [] => ""
  | [x] => match x with | .null => "" | v => jsCoerceStr v
  | x :: y :: rest =>
      (match x with | .null => "" | v => jsCoerceStr v) ++ "," ++ jsJoinComma (y :: rest)

end

/-- Field insertion into a JavaScript object under construction: an
existing key keeps its position and takes the new value, a new key is
appended. -/
def upsert (acc : List (String × Json)) (kv : String × Json) : List (String × Json) :=
  if acc.any (fun f => f.1 = kv.1) then
    acc.map (fun f => if f.1 = kv.1 then (f.1, kv.2) else f)
  else acc ++ [kv]

/-- Fields enumerated by object spread `{...v}`: objects contribute their
fields, arrays and strings their indexed elements, primitives nothing. -/
def spreadFields : Json → List (String × Json)
  | .obj fields => fields.foldl upsert []
  | .arr items => items.enum.map (fun p => (toString p.1, p.2))
  | .str s => s.data.enum.map (fun p => (toString p.1, .str (String.mk [p.2])))
  | _ => []

/-! ## `LinkFormComponent` metadata-size gate (`handleSubmit`) -/

/-- Byte size reported by `new Blob([s]).size`: the UTF-8 length. -/
def blobSize (s : String) : Nat := (s.data.map Char.utf8Size).sum

/-- `Math.round(bytes / 1024)` on natural byte counts. -/
def jsRoundKB (bytes : Nat) : Nat := (2 * bytes + 1024) / 2048

/-- Error message thrown by `validateJsonSize` for an oversized field. -/
def sizeErrorMsg (fieldName : String) (sizeInBytes : Nat) : String :=
  fieldName ++ " exceeds 10KB limit (current: " ++ toString (jsRoundKB sizeInBytes) ++ "KB)"

/-- `validateJsonSize` inside `handleSubmit`: `some message` models the
throw, `none` a silent pass (absent or empty values are not checked). -/
def validateJsonSize (obj : Option Json) (fieldName : String) : Option String :=
  match obj with
  | none => none
  | some j =>
    if jsTruthy j = true ∧ 0 < jsKeysCount j then
      if 10240 < blobSize (jsonStringify j) then
        some (sizeErrorMsg fieldName (blobSize (jsonStringify j)))
      else none
    else none

/-- Form mode of `LinkFormComponent`. -/
inductive FormMode where
  | create
  | edit
deriving DecidableEq

/-- Observable outcome of one `handleSubmit` run, from the point where
the two JSON metadata values have been determined. -/
inductive SubmitOutcome where
  | sizeError (message : String)
  | missingProject
  | missingUrl
  | submitted
deriving DecidableEq

/-- Validation tail of `LinkFormComponent.handleSubmit`: the JSONB size
checks, then the required-field checks, then `onSubmit`
(`SubmitOutcome.submitted` is the only outcome that invokes it). -/
def handleSubmitGate (additionalMetadata properties : Option Json)
    (mode : FormMode) (projectIdPresent urlPresent : Bool) : SubmitOutcome :=
  match validateJsonSize additionalMetadata "Additional Metadata" with
  | some msg => .sizeError msg
  | none =>
    match validateJsonSize properties "Properties" with
    | some msg => .sizeError msg
    | none =>
      if mode = .create ∧ projectIdPresent = false then .missingProject
      else if urlPresent = false then .missingUrl
      else .submitted

/-! ## Social-metadata editor synchronisation (`LinkFormComponent`) -/

/-- Keys (`data-key` attributes) of the five fixed structured inputs of
the social-metadata editor, in DOM order. -/
def socialKeys : List String :=
  ["og:title", "og:description", "og:image", "og:type", "twitter:card"]

/-- State of the social-metadata editor: the value of each structured
input (looked up by its `data-key`) and the advanced textarea's raw
content. -/
structure SocialEditorState where
  vals : String → String
  textarea : String

/-- Key/value pairs collected by `syncFieldsToJson` from the structured
inputs: each value is trimmed and pairs with an empty trimmed value are
dropped. -/
def collectSocialData (vals : String → String) : List (String × String) :=
  socialKeys.foldl
    (fun acc k =>
      let v := jsTrim (vals k)
      if v ≠ "" then acc ++ [(k, v)] else acc)
    []

/-- `syncFieldsToJson`: serialize the structured inputs into the advanced
textarea with `JSON.stringify(_, null, 2)`, spreading the textarea's
current JSON content under the collected pairs when it parses and
falling back to the pairs alone when it does not. -/
def syncFieldsToJson (st : SocialEditorState) : SocialEditorState :=
  let dataJson : List (String × Json) :=
    (collectSocialData st.vals).map (fun p => (p.1, .str p.2))
  let existing : Option Json :=
    if jsTrim st.textarea ≠ "" then jsonParse st.textarea else some (.obj [])
  match existing with
  | some e =>
      { st with textarea :=
          jsonStringify2 (.obj ((spreadFields e ++ dataJson).foldl upsert [])) }
  | none =>
      { st with textarea := jsonStringify2 (.obj (dataJson.foldl upsert [])) }

/-- `syncJsonToFields`: parse the textarea and overwrite each structured
input whose key maps to a truthy value, leaving every other input
unchanged; on parse failure only a console warning is logged (the
returned flag) and no state changes. -/
def syncJsonToFields (st : SocialEditorState) : SocialEditorState × Bool :=
  let parsed : Option Json :=
    if jsTrim st.textarea ≠ "" then jsonParse st.textarea else some (.obj [])
  match parsed with
  | some data =>
      ({ st with vals := fun k =>
          if k ∈ socialKeys then
            match jsonGet data k with
            | some v => if jsTruthy v then jsCoerceStr v else st.vals k
            | none => st.vals k
          else st.vals k },
        false)
  | none => (st, true)

/-- View mode of the social-metadata editor (`isAdvancedMode`). -/
inductive EditorMode where
  | simple
  | advanced
deriving DecidableEq

/-- Advanced-editor toggle click handler: flip the mode and synchronise
in the corresponding direction; the flag reports whether a parse warning
was logged. -/
def toggleAdvanced (mode : EditorMode) (st : SocialEditorState) :
    EditorMode × SocialEditorState × Bool :=
  match mode with
  | .simple => (.advanced, syncFieldsToJson st, false)
  | .advanced =>
      let r := syncJsonToFields st
      (.simple, r.1, r.2)

/-! ## Link list: search, sort and pagination -/

/-- Client-side view of a `Link` (the fields the list logic reads);
`createdAt` is modelled as the millisecond timestamp
`new Date(x).getTime()` evaluates to. -/
structure Link where
  id : String
  url : String
  title : Option String
  description : Option String
  shortCode : Option String
  projectId : Option String
  lifetimeClicks : Nat
  createdAt : Nat
deriving DecidableEq

/-- Search predicate of `LinkListComponent.applyFilters` for one link,
with `q` the already-lowercased query: a case-insensitive substring match
against url, title, description, and short code (falling back to the
id). -/
def linkMatches (q : String) (l : Link) : Bool :=
  jsIncludes (jsToLower l.url) q ||
  (match l.title with | some t => jsIncludes (jsToLower t) q | none => false) ||
  (match l.description with | some d => jsIncludes (jsToLower d) q | none => false) ||
  jsIncludes (jsToLower (jsOrStr l.shortCode l.id)) q

/-- Search/filter state of `LinkListComponent` (`LinkSearchState`). -/
structure LinkSearchState where
  query : String
  projectFilter : String

/-- `LinkListComponent.applyFilters`: recompute `filteredLinks` from the
fetched links — the search filter when the query is non-empty, then the
project filter when one is selected. -/
def applyFilters (links : List Link) (st : LinkSearchState) : List Link :=
  let f1 :=
    if st.query ≠ "" then
      links.filter (fun l =>
        let q := jsToLower st.query
        jsIncludes (jsToLower l.url) q ||
        (match l.title with | some t => jsIncludes (jsToLower t) q | none => false) ||
        (match l.description with | some d => jsIncludes (jsToLower d) q | none => false) ||
        jsIncludes (jsToLower (jsOrStr l.shortCode l.id)) q)
    else links
  if st.projectFilter ≠ "" then
    f1.filter (fun l => l.projectId = some st.projectFilter)
  else f1

/-- Sort direction. -/
inductive SortDir where
  | asc
  | desc
deriving DecidableEq

/-- Sort state of `LinkListComponent` (`LinkSortState`). -/
structure SortState where
  field : String
  direction : SortDir
deriving DecidableEq

/-- `LinkListComponent.handleSort`: clicking the current sort column
flips the direction, clicking another column selects it with descending
direction. -/
def handleSort (f : String) (s : SortState) : SortState :=
  if s.field = f then
    { s with direction := match s.direction with | .asc => .desc | .desc => .asc }
  else { field := f, direction := .desc }

/-- String read `(l as any)[field] || ''` performed by the generic branch
of the `ApiClient.getLinks` sort comparator. -/
def linkStrField (field : String) (l : Link) : String :=
  if field = "url" then l.url
  else if field = "title" then jsOrStr l.title ""
  else if field = "description" then jsOrStr l.description ""
  else if field = "id" then l.id
  else if field = "shortCode" then jsOrStr l.shortCode ""
  else if field = "projectId" then jsOrStr l.projectId ""
  else ""

/-- JavaScript string `<`: lexicographic comparison by code unit. -/
def strLtB : List Char → List Char → Bool
  | [], [] => false
  | [], _ :: _ => true
  | _ :: _, [] => false
  | a :: as, b :: bs =>
      if a.toNat < b.toNat then true
      else if b.toNat < a.toNat then false
      else strLtB as bs

/-- Sort comparator of `ApiClient.getLinks`, already scaled by the
requested direction: numeric for `lifetimeClicks`, timestamp for
`createdAt`, string comparison otherwise. -/
def linkCompare (field : String) (dir : SortDir) (a b : Link) : Int :=
  let dirM : Int := match dir with | .desc => -1 | .asc => 1
  if field = "lifetimeClicks" then
    if a.lifetimeClicks < b.lifetimeClicks then -1 * dirM
    else if b.lifetimeClicks < a.lifetimeClicks then 1 * dirM
    else 0
  else if field = "createdAt" then
    if a.createdAt < b.createdAt then -1 * dirM
    else if b.createdAt < a.createdAt then 1 * dirM
    else 0
  else
    let av := linkStrField field a
    let bv := linkStrField field b
    if strLtB av.data bv.data then -1 * dirM
    else if strLtB bv.data av.data then 1 * dirM
    else 0

/-- Insertion before the first element the new one does not have to
follow (the stable position). -/
def insertLe (le : α → α → Bool) (x : α) : List α → List α
  | [] => [x]
  | y :: ys => if le x y then x :: y :: ys else y :: insertLe le x ys

/-- Stable sort modelling `Array.prototype.sort` with a consistent
comparator. -/
def stableSort (le : α → α → Bool) : List α → List α
  | [] => []
  | x :: xs => insertLe le x (stableSort le xs)

/-- The fetched links sorted by the requested field and direction. -/
def sortLinks (field : String) (dir : SortDir) (links : List Link) : List Link :=
  stableSort (fun a b => linkCompare field dir a b ≤ 0) links

/-- A project as the link manager needs it. -/
structure Project where
  id : String
  apiKey : String
deriving DecidableEq

/-- Request parameters the component passes to `ApiClient.getLinks`. -/
structure GetLinksParams where
  projectId : Option String
  search : Option String
  sort : Option (String × SortDir)
  page : Option Nat
  limit : Option Nat

/-- Search predicate applied inside `ApiClient.getLinks` (title, url,
description — note: no short-code clause), with `q` already lowercased. -/
def serverMatches (q : String) (l : Link) : Bool :=
  (match l.title with | some t => jsIncludes (jsToLower t) q | none => false) ||
  jsIncludes (jsToLower l.url) q ||
  (match l.description with | some d => jsIncludes (jsToLower d) q | none => false)

/-- `transformLink`: use the link id as short code and attach the project
id, falling back to the link id. -/
def transformLink (pid : Option String) (l : Link) : Link :=
  { l with shortCode := some l.id, projectId := some (jsOrStr pid l.id) }

/-- Backend contents as seen through the SDK: the user's projects and
each project's links. -/
structure Backend where
  projects : List Project
  linksOf : String → List Link

/-- Links fetched by `ApiClient.getLinks` before filtering: one
project's links, or all projects' links concatenated in project order,
run through `transformLinks`. -/
def getLinksBase (be : Backend) (params : GetLinksParams) : List Link :=
  match params.projectId with
  | some pid => (be.linksOf pid).map (transformLink (some pid))
  | none =>
      (be.projects.map (fun p => (be.linksOf p.id).map (transformLink (some p.id)))).flatten

/-- `filteredLinks` inside `ApiClient.getLinks`: the search filter when a
non-empty search term was passed. -/
def getLinksFiltered (be : Backend) (params : GetLinksParams) : List Link :=
  match params.search with
  | some q =>
      if q ≠ "" then (getLinksBase be params).filter (serverMatches (jsToLower q))
      else getLinksBase be params
  | none => getLinksBase be params

/-- The filtered links after the in-place sort inside
`ApiClient.getLinks`. -/
def getLinksSorted (be : Backend) (params : GetLinksParams) : List Link :=
  match params.sort with
  | some fd => sortLinks fd.1 fd.2 (getLinksFiltered be params)
  | none => getLinksFiltered be params

/-- `ApiClient.getLinks`: fetch, filter, sort, then slice the page
(`page || 1`, `limit || 10`, slice from `(page-1)*limit` of length
`limit`). -/
def getLinks (be : Backend) (params : GetLinksParams) : List Link :=
  let page := jsOrNat params.page 1
  let limit := jsOrNat params.limit 10
  ((getLinksSorted be params).drop ((page - 1) * limit)).take limit

/-- Object fields for a list of string-valued pairs. -/
def strFields (ps : List (String × String)) : List (String × Json) :=
  ps.map (fun p => (p.1, Json.str p.2))

/-- State of `LinkListComponent`: the fetched links together with the
search, project-filter and sort state. -/
structure ListState where
  links : List Link
  query : String
  projectFilter : String
  sortField : String
  sortDir : SortDir

/-- `filteredLinks` as rendered after `applyFilters` (recomputed in full
on every state change). -/
def displayedLinks (st : ListState) : List Link :=
  applyFilters st.links { query := st.query, projectFilter := st.projectFilter }

/-- Parameters `loadLinks` builds: current sort always, search filter
when the query is non-empty, project id when a project filter is
selected, and never a page or limit. -/
def loadParams (st : ListState) : GetLinksParams :=
  { projectId := if st.projectFilter ≠ "" then some st.projectFilter else none
    search := if st.query ≠ "" then some st.query else none
    sort := some (st.sortField, st.sortDir)
    page := none
    limit := none }

/-- `LinkListComponent.loadLinks`: refetch through `ApiClient.getLinks`
and re-run `applyFilters`. -/
def loadLinks (be : Backend) (st : ListState) : ListState :=
  { st with links := getLinks be (loadParams st) }

/-- Search-input change (after the debounce): update the query and
re-run `applyFilters`; no refetch happens. -/
def onSearchInput (q : String) (st : ListState) : ListState :=
  { st with query := q }

/-- Project-filter change: update the filter and re-run `applyFilters`;
no refetch happens. -/
def onProjectFilterChange (p : String) (st : ListState) : ListState :=
  { st with projectFilter := p }

/-- Sort-header click: `handleSort` on the sort state, then `loadLinks`. -/
def onSortClick (be : Backend) (f : String) (st : ListState) : ListState :=
  let s2 := handleSort f { field := st.sortField, direction := st.sortDir }
  loadLinks be { st with sortField := s2.field, sortDir := s2.direction }

/-! ## Bulk delete (`LinkManagerComponent.handleBulkDelete`) -/

/-- One bulk-delete task for a single link: try `deleteLink` with each
project's credentials in order until one call succeeds; returns the
issued requests (link id, project id) and whether the task fulfilled.
`ok` is the backend oracle for one delete call. -/
def deleteTask (ok : String → String → Bool) (projects : List Project)
    (linkId : String) : List (String × String) × Bool :=
  match projects with
  | [] => ([], false)
  | p :: rest =>
      if ok linkId p.id then ([(linkId, p.id)], true)
      else
        let r := deleteTask ok rest linkId
        ((linkId, p.id) :: r.1, r.2)

/-- Aggregated outcome of one confirmed bulk delete. -/
structure BulkDeleteResult where
  requests : List (String × String)
  successfulCount : Nat
  failedCount : Nat
  successMessage : Option String
  errorShown : Bool
  refreshed : Bool
  selectionCleared : Bool
deriving DecidableEq

/-- Success-banner text built by `handleBulkDelete`. -/
def bulkMsg (successful failed : Nat) : String :=
  "Successfully deleted " ++ toString successful ++ " link" ++
    (if successful = 1 then "" else "s") ++
    (if 0 < failed then ", " ++ toString failed ++ " failed" else "") ++ "."

/-- `LinkManagerComponent.handleBulkDelete` after the user confirmed the
dialog: fan out one task per selected link via `Promise.allSettled`,
count fulfilled and rejected tasks, show the combined message, refresh
the list and clear the selection. -/
def handleBulkDelete (ok : String → String → Bool) (projects : List Project)
    (linkIds : List String) : BulkDeleteResult :=
  let tasks := linkIds.map (deleteTask ok projects)
  let successful := (tasks.filter (fun t => t.2)).length
  let failed := (tasks.filter (fun t => t.2 = false)).length
  { requests := (tasks.map (fun t => t.1)).flatten
    successfulCount := successful
    failedCount := failed
    successMessage := if 0 < successful then some (bulkMsg successful failed) else none
    errorShown := decide (0 < failed) && decide (successful = 0)
    refreshed := true
    selectionCleared := true }

/-- Confirmation gate in front of `handleBulkDelete`: nothing happens
when the dialog is cancelled. -/
def handleBulkDeleteConfirm (confirmed : Bool) (ok : String → String → Bool)
    (projects : List Project) (linkIds : List String) : Option BulkDeleteResult :=
  if confirmed then some (handleBulkDelete ok projects linkIds) else none

/-! ## Auth service and boot-time auth check -/

/-- The authenticated user as `AuthService` holds it. -/
structure User where
  id : String
  email : String
deriving DecidableEq

/-- Events `AuthService` emits. -/
inductive AuthEvent where
  | loginEvent (u : User)
  | logoutEvent
  | restoredEvent (u : Option User)
deriving DecidableEq

/-- State owned by `AuthService`: the current user and the events emitted
so far. -/
structure AuthState where
  currentUser : Option User
  events : List AuthEvent
deriving DecidableEq

/-- `AuthService.logout`: call the SDK logout when the SDK is ready and
swallow any failure of that call (the returned flag records the logged
warning); the `finally` block always clears the user and emits
`auth:logout`.  The function is total: no exception escapes. -/
def logout (sdkReady : Bool) (sdkLogout : Except String Unit) (st : AuthState) :
    AuthState × Bool :=
  let warned : Bool :=
    if sdkReady then
      match sdkLogout with
      | .ok _ => false
      | .error _ => true
    else false
  ({ currentUser := none, events := st.events ++ [.logoutEvent] }, warned)

/-- Timeout (milliseconds) that `checkAuthStatus` races the
`getCurrentUser` call against. -/
def authCheckTimeoutMs : Nat := 5000

/-- Outcome of `await Promise.race([sdk.getCurrentUser(), timeout])`
together with the preceding `initialize()`: `.failed` covers a rejected
initialisation, a rejected `getCurrentUser` (network or SDK error) and
the timeout rejection after `authCheckTimeoutMs`. -/
inductive AuthCheckOutcome where
  | resolved (u : Option User)
  | failed (message : String)

/-- `AuthService.checkAuthStatus`: on a resolved race store the user and
emit `auth:restored`, returning `true`; on any failure run `logout` and
return `false`. -/
def checkAuthStatus (outcome : AuthCheckOutcome) (sdkReady : Bool)
    (sdkLogout : Except String Unit) (st : AuthState) : Bool × AuthState :=
  match outcome with
  | .resolved u => (true, { currentUser := u, events := st.events ++ [.restoredEvent u] })
  | .failed _ => (false, (logout sdkReady sdkLogout st).1)

/-- Visibility of the three top-level screens of `App`. -/
structure AppView where
  loadingVisible : Bool
  loginVisible : Bool
  dashboardVisible : Bool
deriving DecidableEq

/-- `App.hideLoading`. -/
def hideLoading (v : AppView) : AppView := { v with loadingVisible := false }

/-- `App.showLogin`: hide the loading and dashboard screens, show the
login screen. -/
def showLogin (_v : AppView) : AppView :=
  { loadingVisible := false, loginVisible := true, dashboardVisible := false }

/-- `App.showDashboard`: hide the loading and login screens, show the
dashboard. -/
def showDashboard (_v : AppView) : AppView :=
  { loadingVisible := false, loginVisible := false, dashboardVisible := true }

/-- `App.checkAuthStatus`: run the service check, switch to the dashboard
on success and to the login screen otherwise, and hide the boot loading
screen in the `finally` block. -/
def appCheckAuthStatus (outcome : AuthCheckOutcome) (sdkReady : Bool)
    (sdkLogout : Except String Unit) (st : AuthState) (v : AppView) :
    AuthState × AppView :=
  let r := checkAuthStatus outcome sdkReady sdkLogout st
  let v2 := if r.1 then showDashboard v else showLogin v
  (r.2, hideLoading v2)

/-! ## `EventEmitter` -/

/-- Listener registry `events : Map<string, EventListener[]>`; listeners
are identified by numeric ids. -/
abbrev EmitterMap : Type := List (String × List Nat)

/-- `EventEmitter.on`: append the listener to the event's array, creating
the array on first registration. -/
def emOn (event : String) (listener : Nat) (m : EmitterMap) : EmitterMap :=
  if m.any (fun e => e.1 = event) then
    m.map (fun e => if e.1 = event then (e.1, e.2 ++ [listener]) else e)
  else m ++ [(event, [listener])]

/-- Registered listener array for an event (`Map.get`). -/
def emGet (event : String) (m : EmitterMap) : Option (List Nat) :=
  ((m.filter (fun e => e.1 = event)).head?).map (fun e => e.2)

/-- Trace of one `emit` call: the listeners invoked, in order, and the
caught-and-logged listener errors, in order. -/
structure EmitTrace where
  invoked : List Nat
  logged : List (Nat × String)
deriving DecidableEq

/-- Body of the `forEach` inside `emit`: invoke one listener under
`try`/`catch`, recording the invocation and, when it throws, the logged
error. -/
def emitStep (run : Nat → Except String Unit) (tr : EmitTrace) (l : Nat) : EmitTrace :=
  match run l with
  | .ok _ => { tr with invoked := tr.invoked ++ [l] }
  | .error e => { invoked := tr.invoked ++ [l], logged := tr.logged ++ [(l, e)] }

/-- `EventEmitter.emit`: invoke every listener registered for the event
in registration order; a listener that throws has its error caught and
logged and the iteration continues.  `run` models each listener's body
applied to the emitted data; the function is total, so no listener error
reaches the caller of `emit`. -/
def emit (run : Nat → Except String Unit) (event : String) (m : EmitterMap) :
    EmitTrace :=
  match emGet event m with
  | none => { invoked := [], logged := [] }
  | some listeners => listeners.foldl (emitStep run) { invoked := [], logged := [] }

/-! ## Concrete data used by witnesses and counterexamples -/

/-- 10300-byte ASCII string driving the metadata size gate over its
limit. -/
def bigValue : String := ⟨List.replicate 10300 'a'⟩

/-- Single-field metadata object whose serialization exceeds 10240
bytes. -/
def bigMeta : List (String × Json) := [("k", .str bigValue)]

/-- Sample link: only the fields the list logic reads are populated. -/
def cxLink (i : Nat) (u : String) : Link :=
  { id := "l" ++ toString i, url := u, title := none, description := none,
    shortCode := none, projectId := none, lifetimeClicks := 0, createdAt := 100 - i }

/-- Eleven links: the only one matching the search "a" sorts last by
`createdAt` descending, so it is outside the first fetched page. -/
def cxLinks : List Link :=
  [cxLink 1 "x", cxLink 2 "x", cxLink 3 "x", cxLink 4 "x", cxLink 5 "x",
   cxLink 6 "x", cxLink 7 "x", cxLink 8 "x", cxLink 9 "x", cxLink 10 "x",
   cxLink 11 "a"]

/-- Backend with one project owning the eleven sample links. -/
def cxBackend : Backend :=
  { projects := [{ id := "p", apiKey := "key" }], linksOf := fun _ => cxLinks }

/-- Fresh list state as `LinkListComponent` initialises it. -/
def cxListState : ListState :=
  { links := [], query := "", projectFilter := "", sortField := "createdAt",
    sortDir := .desc }

/-- Two sample links for the search-filter witness: only the first one's
url contains "go" case-insensitively. -/
def wLinks : List Link :=
  [{ id := "a1", url := "https://Go.example/x", title := none, description := none,
     shortCode := none, projectId := none, lifetimeClicks := 0, createdAt := 0 },
   { id := "b2", url := "https://site.example/y", title := none, description := none,
     shortCode := none, projectId := none, lifetimeClicks := 3, createdAt := 1 }]

/-- Editor state with a trailing space in one structured input and an
empty textarea. -/
def c5CxState : SocialEditorState :=
  { vals := fun k => if k = "og:title" then "a " else "", textarea := "" }

/-- Trimmed structured-input values for the round-trip witness. -/
def c5wVals : String → String := fun k => if k = "og:title" then "Hello" else ""

/-- Editor state whose textarea holds unparsable JSON while one
structured input holds a value. -/
def c6CxState : SocialEditorState :=
  { vals := fun k => if k = "og:title" then "hello" else "", textarea := "not json" }

/-- Delete oracle for the 3-link scenario: every delete succeeds except
for link "l3". -/
def c3ok : String → String → Bool := fun l _ => !(l == "l3")

/-- Delete oracle that succeeds only with project "p2"'s credentials. -/
def c3cxOk : String → String → Bool := fun _ p => p == "p2"

/-- Single configured project. -/
def c3Projects : List Project := [{ id := "p1", apiKey := "k1" }]

/-- Two configured projects. -/
def c3cxProjects : List Project :=
  [{ id := "p1", apiKey := "k1" }, { id := "p2", apiKey := "k2" }]

/-! ## General lemmas about the embedded primitives -/

theorem isPrefixOf_self_append (l t : List Char) : l.isPrefixOf (l ++ t) = true := by
  induction l with
  | nil => simp [List.isPrefixOf]
  | cons c l ih => simp [List.isPrefixOf, ih]

theorem subListIn_self_append (l t : List Char) : subListIn l (l ++ t) = true := by
  cases l with
  | nil => cases t <;> simp [subListIn]
  | cons c l =>
      rw [List.cons_append, subListIn.eq_def]
      simp only [← List.cons_append]
      simp [isPrefixOf_self_append (c :: l) t]

/-- A string contains every prefix of itself. -/
theorem jsIncludes_append_self (a b : String) : jsIncludes (a ++ b) a = true := by
  unfold jsIncludes
  rw [String.data_append]
  exact subListIn_self_append a.data b.data

/-- `applyFilters` written with the search predicate named. -/
theorem applyFilters_eq (links : List Link) (s : LinkSearchState) :
    applyFilters links s =
      (if s.projectFilter ≠ "" then
        (if s.query ≠ "" then links.filter (linkMatches (jsToLower s.query)) else links).filter
          (fun l => l.projectId = some s.projectFilter)
      else
        (if s.query ≠ "" then links.filter (linkMatches (jsToLower s.query)) else links)) := rfl

/-! ## C2: search filtering -/

/-- C2: for every fetched link collection and every non-empty search
query (with no project filter selected, its default), `applyFilters`
returns exactly the sub-list, in original order, of the links whose
lowercased url, title, description or short code (falling back to the
id) contains the lowercased query; any one matching field suffices and
no other link is included. -/
theorem applyFilters_search_exact (links : List Link) (q : String) (hq : q ≠ "") :
    applyFilters links { query := q, projectFilter := "" } =
      links.filter (linkMatches (jsToLower q)) ∧
    (applyFilters links { query := q, projectFilter := "" }).Sublist links ∧
    ∀ l, l ∈ applyFilters links { query := q, projectFilter := "" } ↔
      l ∈ links ∧
        (jsIncludes (jsToLower l.url) (jsToLower q) ||
         (match l.title with
          | some t => jsIncludes (jsToLower t) (jsToLower q)
          | none => false) ||
         (match l.description with
          | some d => jsIncludes (jsToLower d) (jsToLower q)
          | none => false) ||
         jsIncludes (jsToLower (jsOrStr l.shortCode l.id)) (jsToLower q)) = true := by
  have h : applyFilters links { query := q, projectFilter := "" } =
      links.filter (linkMatches (jsToLower q)) := by
    rw [applyFilters_eq]
    simp [hq]
  refine ⟨h, ?_, ?_⟩
  · rw [h]; exact List.filter_sublist links
  · intro l
    rw [h, List.mem_filter]
    exact Iff.rfl

/-- C2 witness: searching "go" over the two sample links keeps exactly
the link whose url contains "Go". -/
theorem applyFilters_search_exact_witness :
    ("go" ≠ "") ∧
    (applyFilters wLinks { query := "go", projectFilter := "" } =
        wLinks.filter (linkMatches (jsToLower "go")) ∧
      (applyFilters wLinks { query := "go", projectFilter := "" }).Sublist wLinks ∧
      ∀ l, l ∈ applyFilters wLinks { query := "go", projectFilter := "" } ↔
        l ∈ wLinks ∧
          (jsIncludes (jsToLower l.url) (jsToLower "go") ||
           (match l.title with
            | some t => jsIncludes (jsToLower t) (jsToLower "go")
            | none => false) ||
           (match l.description with
            | some d => jsIncludes (jsToLower d) (jsToLower "go")
            | none => false) ||
           jsIncludes (jsToLower (jsOrStr l.shortCode l.id)) (jsToLower "go")) = true) :=
  ⟨by decide, applyFilters_search_exact wLinks "go" (by decide)⟩

/-! ## C7: sort-header clicks -/

/-- C7: clicking the column currently sorted flips the direction and
keeps the field; clicking a different column selects it and resets the
direction to descending. -/
theorem handleSort_spec (f : String) (s : SortState) :
    (s.field = f →
      handleSort f s =
        { field := s.field,
          direction := match s.direction with | .asc => .desc | .desc => .asc }) ∧
    (s.field ≠ f → handleSort f s = { field := f, direction := .desc }) := by
  constructor <;> intro h <;> simp [handleSort, h]

/-- C7 witness: flipping on the active column and resetting on a new
column, at concrete sort states. -/
theorem handleSort_spec_witness :
    (handleSort "createdAt" { field := "createdAt", direction := .desc } =
      { field := "createdAt", direction := .asc }) ∧
    (handleSort "url" { field := "createdAt", direction := .desc } =
      { field := "url", direction := .desc }) :=
  ⟨(handleSort_spec "createdAt" { field := "createdAt", direction := .desc }).1 rfl,
   (handleSort_spec "url" { field := "createdAt", direction := .desc }).2 (by decide)⟩

/-! ## C9: logout always returns to the anonymous state -/

/-- C9: after `AuthService.logout` completes — with the SDK ready or
not, and with the underlying SDK logout succeeding or throwing — the
current user is cleared and `auth:logout` has been emitted; the model is
a total function, mirroring that `logout` never propagates an
exception. -/
theorem logout_spec (sdkReady : Bool) (sdkLogout : Except String Unit) (st : AuthState) :
    (logout sdkReady sdkLogout st).1.currentUser = none ∧
    (logout sdkReady sdkLogout st).1.events = st.events ++ [.logoutEvent] :=
  ⟨rfl, rfl⟩

/-! ## C4: failed boot-time auth check reaches the login screen -/

/-- C4: the boot auth check races `getCurrentUser` against a 5000 ms
timeout, and every failure of the race (timeout, network or SDK error)
takes one path: `checkAuthStatus` returns `false` with the user cleared
and `auth:logout` emitted, and `App.checkAuthStatus` then leaves the
loading screen and shows the login screen. -/
theorem authCheck_failure_spec (message : String) (sdkReady : Bool)
    (sdkLogout : Except String Unit) (st : AuthState) (v : AppView) :
    authCheckTimeoutMs = 5000 ∧
    checkAuthStatus (.failed message) sdkReady sdkLogout st =
      (false, { currentUser := none, events := st.events ++ [.logoutEvent] }) ∧
    (appCheckAuthStatus (.failed message) sdkReady sdkLogout st v).2 =
      { loadingVisible := false, loginVisible := true, dashboardVisible := false } :=
  ⟨rfl, rfl, rfl⟩

/-! ## C10: emit invokes every listener and survives throws -/

theorem emitFold_spec (run : Nat → Except String Unit) (ls : List Nat) (tr : EmitTrace) :
    ls.foldl (emitStep run) tr =
      { invoked := tr.invoked ++ ls,
        logged := tr.logged ++ ls.filterMap (fun l =>
          match run l with
          | .ok _ => none
          | .error e => some (l, e)) } := by
  induction ls generalizing tr with
  | nil => simp
  | cons a as ih =>
      rw [List.foldl_cons, ih]
      cases h : run a <;> simp [emitStep, h]

theorem emGet_emOn_same (event : String) (l : Nat) (m : EmitterMap) :
    emGet event (emOn event l m) = some ((emGet event m).getD [] ++ [l]) := by
  induction m with
  | nil => simp [emOn, emGet]
  | cons e m ih =>
      by_cases he : e.1 = event
      · simp [emOn, emGet, he]
      · have hrest : emOn event l (e :: m) = e :: emOn event l m := by
          simp only [emOn, List.any_cons]
          by_cases hm : m.any (fun x => x.1 = event)
          · simp [he, hm]
          · simp [he, hm]
        rw [hrest]
        have hskip : ∀ m2 : EmitterMap, emGet event (e :: m2) = emGet event m2 := by
          intro m2; simp [emGet, he]
        rw [hskip, hskip, ih]

theorem emGet_registrations_aux (event : String) (ls : List Nat) :
    ∀ (m : EmitterMap) (cur : List Nat), emGet event m = some cur →
      emGet event (ls.foldl (fun m2 l => emOn event l m2) m) = some (cur ++ ls) := by
  induction ls with
  | nil => intro m cur h; simpa using h
  | cons a as ih =>
      intro m cur h
      rw [List.foldl_cons]
      have := emGet_emOn_same event a m
      rw [h] at this
      have h2 := ih (emOn event a m) (cur ++ [a]) (by simpa using this)
      simpa using h2

/-- C10: registering `ls` listeners (in that order) on an event and
emitting it invokes all of them, in registration order, and logs exactly
the errors of the throwing ones while the iteration continues;
`emit` is a total function, so no listener error reaches its caller. -/
theorem emit_spec (run : Nat → Except String Unit) (event : String) (ls : List Nat) :
    emit run event (ls.foldl (fun m l => emOn event l m) []) =
      { invoked := ls,
        logged := ls.filterMap (fun l =>
          match run l with
          | .ok _ => none
          | .error e => some (l, e)) } := by
  cases ls with
  | nil => simp [emit, emGet]
  | cons a as =>
      have h0 : emGet event (emOn event a ([] : EmitterMap)) = some [a] := by
        simpa using emGet_emOn_same event a []
      have h := emGet_registrations_aux event as (emOn event a []) [a] h0
      rw [List.foldl_cons]
      rw [emit, h]
      simpa using emitFold_spec run (a :: as) { invoked := [], logged := [] }

/-! ## C3: bulk delete -/

theorem deleteTask_spec (ok : String → String → Bool) (projects : List Project)
    (l : String) :
    (deleteTask ok projects l).2 = projects.any (fun p => ok l p.id) ∧
    (projects ≠ [] → 1 ≤ (deleteTask ok projects l).1.length) ∧
    (deleteTask ok projects l).1.length ≤ projects.length := by
  induction projects with
  | nil => simp [deleteTask]
  | cons p ps ih =>
      by_cases h : ok l p.id = true
      · simp [deleteTask, h]
      · simp only [Bool.not_eq_true] at h
        refine ⟨?_, ?_, ?_⟩
        · simp [deleteTask, h, ih.1]
        · intro _; simp [deleteTask, h]
        · simp only [deleteTask, h]
          simpa using ih.2.2

theorem length_filter_add_length_filter_not (xs : List α) (p : α → Bool) :
    (xs.filter p).length + (xs.filter (fun a => !(p a))).length = xs.length := by
  induction xs with
  | nil => rfl
  | cons a as ih =>
      cases h : p a <;> simp [List.filter_cons, h, ih] <;> omega

/-- C3 counterexample: with two configured projects and a link whose
delete succeeds only with the second project's credentials, the
confirmed bulk delete of that one link issues two delete requests —
refuting "one independent delete request is issued per link". -/
theorem bulkDelete_requests_counterexample :
    (handleBulkDelete c3cxOk c3cxProjects ["l1"]).requests =
      [("l1", "p1"), ("l1", "p2")] ∧
    (handleBulkDelete c3cxOk c3cxProjects ["l1"]).requests.length ≠
      (["l1"] : List String).length := by
  exact ⟨rfl, by decide⟩

/-- C3 amended: a confirmed bulk delete fans out one independent delete
task per selected link; each task issues up to one request per
configured project, in order, stopping at the first success (so at least
one and at most one-per-project when any project is configured, rather
than exactly one per link).  Task outcomes are aggregated with no retry:
the fulfilled count is the number of links some project could delete,
the rejected count is the rest, the combined message is shown whenever
some deletion succeeded, and the list is refreshed and the selection
cleared. -/
theorem bulkDelete_spec (ok : String → String → Bool) (projects : List Project)
    (linkIds : List String) (confirmed : Bool) (hc : confirmed = true) :
    handleBulkDeleteConfirm confirmed ok projects linkIds =
      some (handleBulkDelete ok projects linkIds) ∧
    (handleBulkDelete ok projects linkIds).requests =
      (linkIds.map (fun l => (deleteTask ok projects l).1)).flatten ∧
    (∀ l, projects ≠ [] →
      1 ≤ (deleteTask ok projects l).1.length ∧
      (deleteTask ok projects l).1.length ≤ projects.length) ∧
    (handleBulkDelete ok projects linkIds).successfulCount =
      (linkIds.filter (fun l => projects.any (fun p => ok l p.id))).length ∧
    (handleBulkDelete ok projects linkIds).failedCount =
      (linkIds.filter (fun l => !(projects.any (fun p => ok l p.id)))).length ∧
    (handleBulkDelete ok projects linkIds).successfulCount +
      (handleBulkDelete ok projects linkIds).failedCount = linkIds.length ∧
    (handleBulkDelete ok projects linkIds).successMessage =
      (if 0 < (handleBulkDelete ok projects linkIds).successfulCount then
        some (bulkMsg (handleBulkDelete ok projects linkIds).successfulCount
          (handleBulkDelete ok projects linkIds).failedCount)
      else none) ∧
    (handleBulkDelete ok projects linkIds).refreshed = true ∧
    (handleBulkDelete ok projects linkIds).selectionCleared = true := by
  have hsucc : (handleBulkDelete ok projects linkIds).successfulCount =
      (linkIds.filter (fun l => projects.any (fun p => ok l p.id))).length := by
    show ((linkIds.map (deleteTask ok projects)).filter (fun t => t.2)).length = _
    rw [List.filter_map, List.length_map]
    congr 1
    refine List.filter_congr (fun l _ => ?_)
    exact (deleteTask_spec ok projects l).1
  have hfail : (handleBulkDelete ok projects linkIds).failedCount =
      (linkIds.filter (fun l => !(projects.any (fun p => ok l p.id)))).length := by
    show ((linkIds.map (deleteTask ok projects)).filter (fun t => t.2 = false)).length = _
    rw [List.filter_map, List.length_map]
    congr 1
    refine List.filter_congr (fun l _ => ?_)
    show decide ((deleteTask ok projects l).2 = false) = _
    rw [(deleteTask_spec ok projects l).1]
    cases projects.any (fun p => ok l p.id) <;> rfl
  refine ⟨by simp [handleBulkDeleteConfirm, hc], ?_, ?_, hsucc, hfail, ?_, rfl, rfl, rfl⟩
  · show ((linkIds.map (deleteTask ok projects)).map (fun t => t.1)).flatten = _
    rw [List.map_map]
    rfl
  · intro l hp
    exact ⟨(deleteTask_spec ok projects l).2.1 hp, (deleteTask_spec ok projects l).2.2⟩
  · rw [hsucc, hfail]
    exact length_filter_add_length_filter_not linkIds _

/-- C3 witness: bulk delete of three links with one failing backend call
reports "Successfully deleted 2 links, 1 failed." and refreshes the
list. -/
theorem bulkDelete_spec_witness :
    (true = true) ∧
    (handleBulkDeleteConfirm true c3ok c3Projects ["l1", "l2", "l3"] =
      some (handleBulkDelete c3ok c3Projects ["l1", "l2", "l3"])) ∧
    (handleBulkDelete c3ok c3Projects ["l1", "l2", "l3"]).successfulCount = 2 ∧
    (handleBulkDelete c3ok c3Projects ["l1", "l2", "l3"]).failedCount = 1 ∧
    (handleBulkDelete c3ok c3Projects ["l1", "l2", "l3"]).successMessage =
      some "Successfully deleted 2 links, 1 failed." ∧
    (handleBulkDelete c3ok c3Projects ["l1", "l2", "l3"]).refreshed = true :=
  ⟨rfl, (bulkDelete_spec c3ok c3Projects ["l1", "l2", "l3"] true rfl).1,
   by decide, by decide, by decide, by decide⟩

/-! ## C6: switching back with unparsable JSON -/

/-- C6 counterexample: with unparsable textarea content, switching the
editor from the advanced JSON view back to the structured view leaves
the structured inputs untouched (the value "hello" survives) — nothing
is reset to a single empty pair (there is no editable pair list in this
editor: the structured view has five fixed inputs). -/
theorem jsonToFields_failure_counterexample :
    (toggleAdvanced .advanced c6CxState).1 = .simple ∧
    (toggleAdvanced .advanced c6CxState).2.1.vals "og:title" = "hello" ∧
    (toggleAdvanced .advanced c6CxState).2.1.textarea = "not json" ∧
    (toggleAdvanced .advanced c6CxState).2.2 = true :=
  ⟨rfl, rfl, rfl, rfl⟩

/-- C6 amended: for every textarea content that fails `JSON.parse`,
switching the metadata editor from json mode back to the structured view
logs a warning, leaves the structured inputs and the textarea unchanged,
and surfaces no exception (the mode switch completes normally to the
simple view). -/
theorem jsonToFields_failure_spec (st : SocialEditorState)
    (h1 : jsTrim st.textarea ≠ "") (h2 : jsonParse st.textarea = none) :
    toggleAdvanced .advanced st = (.simple, st, true) := by
  show (.simple, syncJsonToFields st) = (EditorMode.simple, st, true)
  unfold syncJsonToFields
  simp [h1, h2]

/-- C6 witness: the textarea content "not json" fails to parse and the
mode switch completes with a warning and unchanged state. -/
theorem jsonToFields_failure_spec_witness :
    (jsTrim c6CxState.textarea ≠ "" ∧ jsonParse c6CxState.textarea = none) ∧
    toggleAdvanced .advanced c6CxState = (.simple, c6CxState, true) :=
  ⟨⟨by decide, rfl⟩, jsonToFields_failure_spec c6CxState (by decide) rfl⟩

/-! ## Round trip of the pretty serializer through the parser -/

theorem skipWs_cons_ws (c : Char) (h : isJsonWs c = true) (cs : List Char) :
    skipWs (c :: cs) = skipWs cs := by
  simp [skipWs, List.dropWhile_cons, h]

theorem skipWs_cons_not (c : Char) (h : isJsonWs c = false) (cs : List Char) :
    skipWs (c :: cs) = c :: cs := by
  simp [skipWs, List.dropWhile_cons, h]

theorem skipWs_indent (n : Nat) (cs : List Char) :
    skipWs (List.replicate n ' ' ++ cs) = skipWs cs := by
  induction n with
  | zero => simp
  | succ k ih => rw [List.replicate_succ, List.cons_append, skipWs_cons_ws ' ' (by decide), ih]

theorem skipWs_idem (cs : List Char) : skipWs (skipWs cs) = skipWs cs := by
  induction cs with
  | nil => rfl
  | cons c t ih =>
      cases h : isJsonWs c
      · rw [skipWs_cons_not c h, skipWs_cons_not c h]
      · rw [skipWs_cons_ws c h, ih]

theorem parseHexDigit_hexDigit (d : Nat) (h : d < 16) :
    parseHexDigit (hexDigit d) = some d := by
  interval_cases d <;> decide

theorem scanStr_u_step (c : Char) (acc T : List Char) (h : c.toNat < 32) :
    scanStr acc
        ('\\' :: 'u' :: '0' :: '0' :: hexDigit (c.toNat / 16) ::
          hexDigit (c.toNat % 16) :: T) =
      scanStr (c :: acc) T := by
  have hhi : parseHexDigit (hexDigit (c.toNat / 16)) = some (c.toNat / 16) :=
    parseHexDigit_hexDigit _ (by omega)
  have hlo : parseHexDigit (hexDigit (c.toNat % 16)) = some (c.toNat % 16) :=
    parseHexDigit_hexDigit _ (by omega)
  have e1 : ((0 * 16 + 0) * 16 + c.toNat / 16) * 16 + c.toNat % 16 = c.toNat := by omega
  have e2 : c.toNat / 16 * 16 + c.toNat % 16 = c.toNat := by omega
  have e3 : 16 * (c.toNat / 16) + c.toNat % 16 = c.toNat := by omega
  rw [scanStr.eq_def]
  simp [hhi, hlo, show parseHexDigit '0' = some 0 from rfl, e1, e2, e3, Char.ofNat_toNat]

theorem escapeChar_control (c : Char) (h : c.toNat < 32)
    (hb : c ≠ Char.ofNat 8) (ht : c ≠ Char.ofNat 9) (hn : c ≠ Char.ofNat 10)
    (hf : c ≠ Char.ofNat 12) (hr : c ≠ Char.ofNat 13) :
    escapeChar c =
      ['\\', 'u', '0', '0', hexDigit (c.toNat / 16), hexDigit (c.toNat % 16)] := by
  have hq : c ≠ '"' := by
    intro hc; rw [hc] at h; exact absurd h (by decide)
  have hbs : c ≠ '\\' := by
    intro hc; rw [hc] at h; exact absurd h (by decide)
  simp [escapeChar, hq, hbs, hb, ht, hn, hf, hr, h]

theorem scanStr_escapeList (l : List Char) (acc rest : List Char) :
    scanStr acc (escapeList l ++ '"' :: rest) = some (⟨acc.reverse ++ l⟩, rest) := by
  induction l generalizing acc with
  | nil =>
      show scanStr acc ('"' :: rest) = _
      rw [scanStr.eq_def]
      simp [escapeList]
  | cons c l ih =>
      have hesc : escapeList (c :: l) ++ '"' :: rest =
          escapeChar c ++ (escapeList l ++ '"' :: rest) := by
        simp [escapeList]
      rw [hesc]
      by_cases h8 : c.toNat < 32
      · by_cases h3 : c = Char.ofNat 8
        · subst h3
          rw [show escapeChar (Char.ofNat 8) = ['\\', 'b'] from rfl,
            List.cons_append, List.cons_append, List.nil_append, scanStr.eq_def]
          simp [ih]
        · by_cases h4 : c = Char.ofNat 9
          · subst h4
            rw [show escapeChar (Char.ofNat 9) = ['\\', 't'] from rfl,
              List.cons_append, List.cons_append, List.nil_append, scanStr.eq_def]
            simp [ih]
          · by_cases h5 : c = Char.ofNat 10
            · subst h5
              rw [show escapeChar (Char.ofNat 10) = ['\\', 'n'] from rfl,
                List.cons_append, List.cons_append, List.nil_append, scanStr.eq_def]
              simp [ih]
            · by_cases h6 : c = Char.ofNat 12
              · subst h6
                rw [show escapeChar (Char.ofNat 12) = ['\\', 'f'] from rfl,
                  List.cons_append, List.cons_append, List.nil_append, scanStr.eq_def]
                simp [ih]
              · by_cases h7 : c = Char.ofNat 13
                · subst h7
                  rw [show escapeChar (Char.ofNat 13) = ['\\', 'r'] from rfl,
                    List.cons_append, List.cons_append, List.nil_append, scanStr.eq_def]
                  simp [ih]
                · rw [escapeChar_control c h8 h3 h4 h5 h6 h7, List.cons_append,
                    List.cons_append, List.cons_append, List.cons_append,
                    List.cons_append, List.cons_append, List.nil_append,
                    scanStr_u_step c acc _ h8, ih]
                  simp
      · by_cases h1 : c = '"'
        · subst h1
          rw [show escapeChar '"' = ['\\', '"'] from rfl,
            List.cons_append, List.cons_append, List.nil_append, scanStr.eq_def]
          simp [ih]
        · by_cases h2 : c = '\\'
          · subst h2
            rw [show escapeChar '\\' = ['\\', '\\'] from rfl,
              List.cons_append, List.cons_append, List.nil_append, scanStr.eq_def]
            simp [ih]
          · have hb : c ≠ Char.ofNat 8 := fun hc => h8 (by rw [hc]; decide)
            have ht : c ≠ Char.ofNat 9 := fun hc => h8 (by rw [hc]; decide)
            have hn : c ≠ Char.ofNat 10 := fun hc => h8 (by rw [hc]; decide)
            have hf : c ≠ Char.ofNat 12 := fun hc => h8 (by rw [hc]; decide)
            have hr : c ≠ Char.ofNat 13 := fun hc => h8 (by rw [hc]; decide)
            have hstep : escapeChar c = [c] := by
              simp [escapeChar, h1, h2, hb, ht, hn, hf, hr, h8]
            rw [hstep, List.cons_append, List.nil_append, scanStr.eq_def]
            simp [h1, h2, h8, ih]

theorem parseVal_str_sp (v : String) (T : List Char) (f : Nat) (hf : 1 ≤ f) :
    parseVal f (' ' :: (quoteChars v ++ T)) = some (.str v, T) := by
  cases f with
  | zero => omega
  | succ f2 =>
      rw [show (' ' :: (quoteChars v ++ T)) =
          ' ' :: ('"' :: (escapeList v.data ++ '"' :: T)) from by simp [quoteChars]]
      rw [parseVal.eq_def]
      simp only []
      rw [skipWs_cons_ws ' ' (by decide), skipWs_cons_not '"' (by decide)]
      simp [scanStr_escapeList]

theorem skipWs_indentChars (level : Nat) (cs : List Char) :
    skipWs (indentChars level ++ cs) = skipWs cs := by
  unfold indentChars
  exact skipWs_indent _ _

theorem parseMembers_skipWs (fuel : Nat) (cs cs' : List Char)
    (acc : List (String × Json)) (h : skipWs cs = skipWs cs') :
    parseMembers fuel cs acc = parseMembers fuel cs' acc := by
  cases fuel with
  | zero =>
      rw [parseMembers.eq_def, parseMembers.eq_def]
  | succ f =>
      rw [parseMembers.eq_def, parseMembers.eq_def]
      simp only []
      rw [h]

theorem prettyChars_str (level : Nat) (s : String) :
    prettyChars level (.str s) = quoteChars s := by
  rw [prettyChars.eq_def]

theorem prettyFields_single (level : Nat) (k : String) (j : Json) :
    prettyFields level [(k, j)] =
      indentChars level ++ quoteChars k ++ ':' :: ' ' :: prettyChars level j := by
  rw [prettyFields.eq_def]

theorem prettyFields_cons (level : Nat) (k : String) (j : Json)
    (m : String × Json) (rest : List (String × Json)) :
    prettyFields level ((k, j) :: m :: rest) =
      indentChars level ++ quoteChars k ++ ':' :: ' ' :: prettyChars level j ++
        ',' :: '\n' :: prettyFields level (m :: rest) := by
  rw [prettyFields.eq_def]

theorem parseMembers_pretty (ps : List (String × String)) :
    ∀ (fuel : Nat) (acc : List (String × Json)), ps ≠ [] → ps.length + 1 ≤ fuel →
      parseMembers fuel (prettyFields 1 (strFields ps) ++ '\n' :: [rbraceChar]) acc =
        some (.obj (acc ++ strFields ps), []) := by
  induction ps with
  | nil => intro fuel acc hne; cases hne rfl
  | cons kv ps2 ih =>
      intro fuel acc hne hf
      obtain ⟨k, v⟩ := kv
      cases fuel with
      | zero => omega
      | succ f =>
          have hf1 : 1 ≤ f := by
            simp only [List.length_cons] at hf
            omega
          cases ps2 with
          | nil =>
              rw [show strFields [(k, v)] = [(k, Json.str v)] from rfl,
                prettyFields_single, prettyChars_str]
              rw [show (indentChars 1 ++ quoteChars k ++ ':' :: ' ' :: quoteChars v) ++
                    '\n' :: [rbraceChar] =
                  indentChars 1 ++ ('"' :: (escapeList k.data ++
                    '"' :: (':' :: (' ' :: (quoteChars v ++ '\n' :: [rbraceChar]))))) from by
                simp [quoteChars]]
              rw [parseMembers.eq_def]
              simp only []
              rw [skipWs_indentChars, skipWs_cons_not '"' (by decide)]
              simp only [reduceIte]
              rw [scanStr_escapeList]
              simp only [List.reverse_nil, List.nil_append]
              rw [skipWs_cons_not ':' (by decide)]
              simp only [reduceIte]
              rw [parseVal_str_sp v _ f hf1]
              simp only []
              rw [skipWs_cons_ws '\n' (by decide), skipWs_cons_not rbraceChar (by decide)]
              simp [show rbraceChar ≠ ',' from by decide]
          | cons kv2 ps3 =>
              rw [show strFields ((k, v) :: kv2 :: ps3) =
                  (k, Json.str v) :: (kv2.1, Json.str kv2.2) :: strFields ps3 from by
                simp [strFields]]
              rw [prettyFields_cons, prettyChars_str]
              rw [show (indentChars 1 ++ quoteChars k ++ ':' :: ' ' :: quoteChars v ++
                    ',' :: '\n' :: prettyFields 1 ((kv2.1, Json.str kv2.2) :: strFields ps3)) ++
                    '\n' :: [rbraceChar] =
                  indentChars 1 ++ ('"' :: (escapeList k.data ++
                    '"' :: (':' :: (' ' :: (quoteChars v ++
                      ',' :: ('\n' :: prettyFields 1 ((kv2.1, Json.str kv2.2) :: strFields ps3) ++
                        '\n' :: [rbraceChar])))))) from by
                simp [quoteChars]]
              rw [parseMembers.eq_def]
              simp only []
              rw [skipWs_indentChars, skipWs_cons_not '"' (by decide)]
              simp only [reduceIte]
              rw [scanStr_escapeList]
              simp only [List.reverse_nil, List.nil_append]
              rw [skipWs_cons_not ':' (by decide)]
              simp only [reduceIte]
              rw [parseVal_str_sp v _ f hf1]
              simp only []
              rw [skipWs_cons_not ',' (by decide)]
              simp only [reduceIte]
              rw [parseMembers_skipWs f _
                  (prettyFields 1 ((kv2.1, Json.str kv2.2) :: strFields ps3) ++
                    '\n' :: [rbraceChar]) _
                  (by rw [List.cons_append, skipWs_cons_ws '\n' (by decide)])]
              rw [show (kv2.1, Json.str kv2.2) :: strFields ps3 = strFields (kv2 :: ps3) from by
                simp [strFields]]
              rw [ih f (acc ++ [(k, Json.str v)]) (by simp) (by
                have := List.length_cons kv2 ps3
                simp at hf ⊢
                omega)]
              simp

theorem length_prettyFields_ge (ps : List (String × String)) :
    ps.length ≤ (prettyFields 1 (strFields ps)).length := by
  induction ps with
  | nil => simp [strFields]
  | cons kv ps2 ih =>
      obtain ⟨k, v⟩ := kv
      cases ps2 with
      | nil =>
          rw [show strFields [(k, v)] = [(k, Json.str v)] from rfl, prettyFields_single]
          simp [indentChars]
      | cons kv2 ps3 =>
          rw [show strFields ((k, v) :: kv2 :: ps3) =
              (k, Json.str v) :: (kv2.1, Json.str kv2.2) :: strFields ps3 from by
            simp [strFields]]
          rw [prettyFields_cons]
          rw [show (kv2.1, Json.str kv2.2) :: strFields ps3 = strFields (kv2 :: ps3) from by
            simp [strFields]] at *
          simp only [List.length_append, List.length_cons] at *
          omega

theorem skipWs_prettyFields (ps : List (String × String)) (hne : ps ≠ [])
    (Y : List Char) :
    ∃ r2 : List Char, skipWs (prettyFields 1 (strFields ps) ++ Y) = '"' :: r2 := by
  cases ps with
  | nil => cases hne rfl
  | cons kv ps2 =>
      obtain ⟨k, v⟩ := kv
      cases ps2 with
      | nil =>
          rw [show strFields [(k, v)] = [(k, Json.str v)] from rfl, prettyFields_single]
          rw [show (indentChars 1 ++ quoteChars k ++ ':' :: ' ' ::
                prettyChars 1 (Json.str v)) ++ Y =
              indentChars 1 ++ ('"' :: (escapeList k.data ++
                '"' :: (':' :: ' ' :: (prettyChars 1 (Json.str v) ++ Y)))) from by
            simp [quoteChars]]
          rw [skipWs_indentChars, skipWs_cons_not '"' (by decide)]
          exact ⟨_, rfl⟩
      | cons kv2 ps3 =>
          rw [show strFields ((k, v) :: kv2 :: ps3) =
              (k, Json.str v) :: (kv2.1, Json.str kv2.2) :: strFields ps3 from by
            simp [strFields]]
          rw [prettyFields_cons]
          rw [show (indentChars 1 ++ quoteChars k ++ ':' :: ' ' ::
                prettyChars 1 (Json.str v) ++
                ',' :: '\n' :: prettyFields 1 ((kv2.1, Json.str kv2.2) :: strFields ps3)) ++ Y =
              indentChars 1 ++ ('"' :: (escapeList k.data ++
                '"' :: (':' :: ' ' :: (prettyChars 1 (Json.str v) ++
                  ',' :: '\n' ::
                    (prettyFields 1 ((kv2.1, Json.str kv2.2) :: strFields ps3) ++ Y))))) from by
            simp [quoteChars]]
          rw [skipWs_indentChars, skipWs_cons_not '"' (by decide)]
          exact ⟨_, rfl⟩

theorem jsonParse_pretty_strObj (ps : List (String × String)) :
    jsonParse (jsonStringify2 (.obj (strFields ps))) = some (.obj (strFields ps)) := by
  cases ps with
  | nil => rfl
  | cons kv ps2 =>
      have hdata : (jsonStringify2 (.obj (strFields (kv :: ps2)))).data =
          lbraceChar :: '\n' ::
            (prettyFields 1 (strFields (kv :: ps2)) ++ '\n' :: [rbraceChar]) := by
        show prettyChars 0 (.obj (strFields (kv :: ps2))) = _
        rw [show strFields (kv :: ps2) = (kv.1, Json.str kv.2) :: strFields ps2 from by
          simp [strFields]]
        rw [prettyChars.eq_def]
        simp [indentChars]
      have hlen : (jsonStringify2 (.obj (strFields (kv :: ps2)))).data.length =
          (prettyFields 1 (strFields (kv :: ps2))).length + 4 := by
        rw [hdata]
        simp
      obtain ⟨r2, hr2⟩ :=
        skipWs_prettyFields (kv :: ps2) (by simp) ('\n' :: [rbraceChar])
      have hbound : (kv :: ps2).length + 1 ≤
          (prettyFields 1 (strFields (kv :: ps2))).length + 4 := by
        have := length_prettyFields_ge (kv :: ps2)
        omega
      rw [jsonParse, hlen, hdata]
      rw [parseVal.eq_def]
      simp only []
      rw [skipWs_cons_not lbraceChar (by decide)]
      simp only [show (lbraceChar = '"') = False from by simp [lbraceChar],
        show (lbraceChar = lbraceChar) = True from by simp, if_false, if_true,
        ite_false, ite_true]
      rw [skipWs_cons_ws '\n' (by decide), hr2]
      simp only [show ('"' = rbraceChar) = False from by simp [rbraceChar], ite_false]
      rw [parseMembers_skipWs _ ('"' :: r2)
          (prettyFields 1 (strFields (kv :: ps2)) ++ '\n' :: [rbraceChar]) []
          (by rw [skipWs_cons_not '"' (by decide), hr2])]
      rw [parseMembers_pretty (kv :: ps2) _ [] (by simp) hbound]
      simp [skipWs]

/-! ## C5: structured-fields / JSON round trip -/

theorem collectSocialData_eq (vals : String → String) :
    collectSocialData vals =
      (socialKeys.filter (fun k => jsTrim (vals k) ≠ "")).map
        (fun k => (k, jsTrim (vals k))) := by
  have h : ∀ (keys : List String) (acc : List (String × String)),
      keys.foldl
        (fun acc k =>
          let v := jsTrim (vals k)
          if v ≠ "" then acc ++ [(k, v)] else acc) acc =
        acc ++ (keys.filter (fun k => jsTrim (vals k) ≠ "")).map
          (fun k => (k, jsTrim (vals k))) := by
    intro keys
    induction keys with
    | nil => intro acc; simp
    | cons k ks ih =>
        intro acc
        rw [List.foldl_cons, List.filter_cons]
        by_cases hk : jsTrim (vals k) ≠ ""
        · simp only [ih]
          simp [hk]
        · simp only [ih]
          simp [hk]
  exact h socialKeys []

theorem foldl_upsert_keys_nodup (ps : List (String × Json)) :
    ∀ acc : List (String × Json),
      ((acc ++ ps).map (fun p => p.1)).Nodup → ps.foldl upsert acc = acc ++ ps := by
  induction ps with
  | nil => intro acc _; simp
  | cons kv ps2 ih =>
      intro acc hnd
      have hnd' : (kv.1 :: (acc.map (fun p => p.1) ++ ps2.map (fun p => p.1))).Nodup := by
        rw [← List.nodup_middle]
        simpa using hnd
      have hnotin : kv.1 ∉ acc.map (fun p => p.1) := by
        intro hmem
        exact (List.nodup_cons.mp hnd').1 (List.mem_append.mpr (Or.inl hmem))
      have hany : acc.any (fun f => f.1 = kv.1) = false := by
        rw [List.any_eq_false]
        intro x hx
        simp only [decide_eq_true_eq]
        intro hx1
        exact hnotin (hx1 ▸ List.mem_map_of_mem (fun p => p.1) hx)
      have hup : upsert acc kv = acc ++ [kv] := by
        unfold upsert
        rw [hany]
        simp
      rw [List.foldl_cons, hup, ih (acc ++ [kv]) (by
        rw [List.append_assoc]
        simpa using hnd)]
      simp

theorem filter_eq_singleton_of_nodup (l : List String) (hnd : l.Nodup) (a : String)
    (ha : a ∈ l) : l.filter (fun x => x = a) = [a] := by
  induction l with
  | nil => cases ha
  | cons b l2 ih =>
      rw [List.filter_cons]
      rcases List.mem_cons.mp ha with h | h
      · subst h
        have hnot : a ∉ l2 := (List.nodup_cons.mp hnd).1
        have hnil : l2.filter (fun x => x = a) = [] := by
          rw [List.filter_eq_nil_iff]
          intro x hx
          simp only [decide_eq_true_eq]
          intro hxa
          exact hnot (hxa ▸ hx)
        simp [hnil]
      · have hb : ¬ (b = a) := fun hba => (List.nodup_cons.mp hnd).1 (hba ▸ h)
        rw [show (decide (b = a)) = false from by simp [hb]]
        simp only [Bool.false_eq_true, if_false]
        exact ih (List.nodup_cons.mp hnd).2 h

theorem jsonGet_strObj (keys : List String) (hnd : keys.Nodup) (P : String → Bool)
    (f : String → String) (k : String) (hk : k ∈ keys) :
    jsonGet (.obj ((keys.filter P).map (fun k2 => (k2, Json.str (f k2))))) k =
      (if P k then some (Json.str (f k)) else none) := by
  unfold jsonGet
  simp only []
  rw [List.filter_map]
  rw [List.filter_congr (fun x _ => show _ = decide (x = k) from by simp)]
  by_cases hP : P k = true
  · rw [filter_eq_singleton_of_nodup (keys.filter P) (hnd.filter P) k
      (List.mem_filter.mpr ⟨hk, hP⟩)]
    simp [hP]
  · have hnil : (keys.filter P).filter (fun x => x = k) = [] := by
      rw [List.filter_eq_nil_iff]
      intro x hx
      simp only [decide_eq_true_eq]
      intro hxk
      exact hP (List.mem_filter.mp (hxk ▸ hx)).2
    rw [hnil]
    simp [hP]

theorem jsTrim_mk_cons_ne_empty (c : Char) (t : List Char) (h : isWsChar c = false) :
    jsTrim ⟨c :: t⟩ ≠ "" := by
  unfold jsTrim
  intro hc
  have hdata : (((c :: t).dropWhile isWsChar).reverse.dropWhile isWsChar).reverse = [] :=
    congrArg String.data hc
  rw [List.dropWhile_cons] at hdata
  simp only [h, Bool.false_eq_true, if_false] at hdata
  rw [List.reverse_eq_nil_iff] at hdata
  have hmem : c ∈ (c :: t).reverse := by
    rw [List.mem_reverse]
    exact List.mem_cons_self c t
  have := List.dropWhile_eq_nil_iff.mp hdata c hmem
  rw [h] at this
  cases this

theorem prettyChars_obj_head (fields : List (String × Json)) :
    ∃ t : List Char, prettyChars 0 (.obj fields) = lbraceChar :: t := by
  cases fields with
  | nil => exact ⟨[rbraceChar], rfl⟩
  | cons f fs =>
      rw [prettyChars.eq_def]
      exact ⟨_, rfl⟩

theorem jsCoerceStr_str (s : String) : jsCoerceStr (.str s) = s := by
  rw [jsCoerceStr.eq_def]

theorem stringify2_obj_trim_ne (fields : List (String × Json)) :
    jsTrim (jsonStringify2 (.obj fields)) ≠ "" := by
  obtain ⟨t, ht⟩ := prettyChars_obj_head fields
  show jsTrim ⟨prettyChars 0 (.obj fields)⟩ ≠ ""
  rw [ht]
  exact jsTrim_mk_cons_ne_empty lbraceChar t (by decide)

theorem collect_keys_nodup (vals : String → String) :
    ((([] : List (String × Json)) ++ strFields (collectSocialData vals)).map
      (fun p => p.1)).Nodup := by
  rw [collectSocialData_eq]
  simp only [List.nil_append, strFields, List.map_map]
  have hsk : socialKeys.Nodup := by decide
  simpa [Function.comp_def, List.map_id'] using
    hsk.filter (fun k => decide (jsTrim (vals k) ≠ ""))

theorem fieldsToJson_eq (vals : String → String) :
    syncFieldsToJson { vals := vals, textarea := "" } =
      { vals := vals,
        textarea := jsonStringify2 (.obj (strFields (collectSocialData vals))) } := by
  have hfold := foldl_upsert_keys_nodup (strFields (collectSocialData vals)) []
    (collect_keys_nodup vals)
  have hsync : syncFieldsToJson { vals := vals, textarea := "" } =
      { vals := vals,
        textarea := jsonStringify2
          (.obj ((strFields (collectSocialData vals)).foldl upsert [])) } := rfl
  rw [hsync, hfold]
  simp

/-- C5 counterexample: the structured input `og:title` holds `"a "`
(trailing space) over an empty textarea; switching kv→json serializes
the trimmed value `"a"`, and switching back yields `"a"` — not a
semantically equal value to the entered `"a "`. -/
theorem kvJsonRoundTrip_counterexample :
    c5CxState.vals "og:title" = "a " ∧
    (syncFieldsToJson c5CxState).textarea =
      jsonStringify2 (.obj [("og:title", .str "a")]) ∧
    (syncJsonToFields (syncFieldsToJson c5CxState)).1.vals "og:title" = "a" ∧
    ("a" : String) ≠ "a " :=
  ⟨rfl, rfl, rfl, by decide⟩

/-- C5 amended: for structured-input values that carry no surrounding
whitespace (each value equals its trim) and an empty advanced textarea,
switching kv→json writes `JSON.stringify(_, null, 2)` of exactly the
pairs with non-empty values (pairs with empty values are dropped from
the serialization; the fixed input keys are never empty), and switching
back to the structured view reproduces every input's value exactly and
logs no warning.  In general the round trip stores and returns the
trimmed value, so a value with surrounding whitespace comes back
trimmed. -/
theorem kvJsonRoundTrip_spec (vals : String → String)
    (ht : ∀ k ∈ socialKeys, jsTrim (vals k) = vals k) :
    (syncFieldsToJson { vals := vals, textarea := "" }).textarea =
      jsonStringify2 (.obj (strFields (collectSocialData vals))) ∧
    collectSocialData vals =
      (socialKeys.filter (fun k => vals k ≠ "")).map (fun k => (k, vals k)) ∧
    (∀ k ∈ socialKeys,
      (syncJsonToFields (syncFieldsToJson { vals := vals, textarea := "" })).1.vals k =
        vals k) ∧
    (syncJsonToFields (syncFieldsToJson { vals := vals, textarea := "" })).2 = false := by
  have hcollect : collectSocialData vals =
      (socialKeys.filter (fun k => vals k ≠ "")).map (fun k => (k, vals k)) := by
    rw [collectSocialData_eq]
    rw [List.filter_congr (fun k hk => show decide (jsTrim (vals k) ≠ "") =
      decide (vals k ≠ "") from by rw [ht k hk])]
    refine List.map_congr_left (fun k hk => ?_)
    rw [ht k (List.mem_of_mem_filter hk)]
  rw [fieldsToJson_eq]
  have htrim := stringify2_obj_trim_ne (strFields (collectSocialData vals))
  have hparse := jsonParse_pretty_strObj (collectSocialData vals)
  refine ⟨rfl, hcollect, ?_, ?_⟩
  · intro k hk
    unfold syncJsonToFields
    rw [if_pos htrim, hparse]
    simp only [hk, if_pos, reduceIte, if_true]
    have hget : jsonGet (.obj (strFields (collectSocialData vals))) k =
        (if (fun k2 => decide (jsTrim (vals k2) ≠ "")) k then
          some (Json.str (jsTrim (vals k))) else none) := by
      rw [collectSocialData_eq]
      rw [show strFields ((socialKeys.filter (fun k2 => jsTrim (vals k2) ≠ "")).map
          (fun k2 => (k2, jsTrim (vals k2)))) =
        (socialKeys.filter (fun k2 => jsTrim (vals k2) ≠ "")).map
          (fun k2 => (k2, Json.str (jsTrim (vals k2)))) from by
        simp [strFields]]
      exact jsonGet_strObj socialKeys (by decide) _ _ k hk
    rw [hget]
    by_cases hne : vals k ≠ ""
    · rw [if_pos (by simp only [ht k hk]; simpa using hne)]
      simp only []
      rw [show jsTruthy (Json.str (jsTrim (vals k))) = true from by
        simp [jsTruthy, ht k hk]
        simpa using hne]
      simp only [if_pos, if_true]
      rw [jsCoerceStr_str, ht k hk]
    · rw [if_neg (by simp only [ht k hk]; simpa using hne)]
  · unfold syncJsonToFields
    rw [if_pos htrim, hparse]

/-- C5 witness: trimmed sample values round-trip exactly through the
serialized textarea. -/
theorem kvJsonRoundTrip_spec_witness :
    (∀ k ∈ socialKeys, jsTrim (c5wVals k) = c5wVals k) ∧
    ((syncFieldsToJson { vals := c5wVals, textarea := "" }).textarea =
      jsonStringify2 (.obj (strFields (collectSocialData c5wVals))) ∧
    collectSocialData c5wVals =
      (socialKeys.filter (fun k => c5wVals k ≠ "")).map (fun k => (k, c5wVals k)) ∧
    (∀ k ∈ socialKeys,
      (syncJsonToFields (syncFieldsToJson { vals := c5wVals, textarea := "" })).1.vals k =
        c5wVals k) ∧
    (syncJsonToFields (syncFieldsToJson { vals := c5wVals, textarea := "" })).2 = false) :=
  ⟨by decide, kvJsonRoundTrip_spec c5wVals (by decide)⟩

/-! ## C1: metadata size gate -/

theorem utf8Sum_append (a b : List Char) :
    ((a ++ b).map Char.utf8Size).sum = (a.map Char.utf8Size).sum + (b.map Char.utf8Size).sum := by
  simp

theorem escapeList_replicate_a (n : Nat) :
    escapeList (List.replicate n 'a') = List.replicate n 'a' := by
  induction n with
  | zero => rfl
  | succ m ih =>
      rw [List.replicate_succ]
      rw [show escapeList ('a' :: List.replicate m 'a') =
          escapeChar 'a' ++ escapeList (List.replicate m 'a') from by simp [escapeList]]
      rw [ih, show escapeChar 'a' = ['a'] from by decide]
      rfl

theorem blobSize_bigMeta : blobSize (jsonStringify (.obj bigMeta)) = 10308 := by
  have h1 : stringifyChars (.obj bigMeta) =
      lbraceChar :: (quoteChars "k" ++ ':' :: (quoteChars bigValue ++ [rbraceChar])) := by
    rw [show bigMeta = [("k", Json.str bigValue)] from rfl]
    rw [stringifyChars.eq_def]
    simp only []
    rw [stringifyFields.eq_def]
    simp only []
    rw [stringifyChars.eq_def]
    simp [List.append_assoc]
  have h2 : quoteChars bigValue = '"' :: (List.replicate 10300 'a' ++ ['"']) := by
    rw [show quoteChars bigValue = '"' :: escapeList bigValue.data ++ ['"'] from rfl]
    rw [show bigValue.data = List.replicate 10300 'a' from rfl]
    rw [escapeList_replicate_a]
    exact List.cons_append _ _ _
  show ((stringifyChars (.obj bigMeta)).map Char.utf8Size).sum = 10308
  rw [h1, h2]
  simp only [List.map_cons, List.map_append, List.sum_cons, List.sum_append,
    List.map_replicate, List.sum_replicate, smul_eq_mul, List.map_nil, List.sum_nil,
    show Char.utf8Size 'a' = 1 from rfl, show Char.utf8Size '"' = 1 from rfl,
    show Char.utf8Size 'k' = 1 from rfl, show Char.utf8Size ':' = 1 from rfl,
    show Char.utf8Size lbraceChar = 1 from rfl,
    show Char.utf8Size rbraceChar = 1 from rfl,
    show quoteChars "k" = ['"', 'k', '"'] from rfl]
  omega

/-- C1: a non-empty metadata object whose compact `JSON.stringify`
serialization exceeds 10240 UTF-8 bytes blocks submission with an error
naming the exceeding field ("Additional Metadata" first, then
"Properties" when the first field passed); when both objects fit within
10240 bytes the size check never blocks (the outcome is one of the
later required-field checks or the `onSubmit` call). -/
theorem handleSubmit_size_spec (fa fp : List (String × Json)) (p : Option Json)
    (mode : FormMode) (projectIdPresent urlPresent : Bool) :
    (fa ≠ [] → 10240 < blobSize (jsonStringify (.obj fa)) →
      handleSubmitGate (some (.obj fa)) p mode projectIdPresent urlPresent =
        .sizeError (sizeErrorMsg "Additional Metadata" (blobSize (jsonStringify (.obj fa)))) ∧
      jsIncludes (sizeErrorMsg "Additional Metadata" (blobSize (jsonStringify (.obj fa))))
        "Additional Metadata" = true) ∧
    (validateJsonSize (some (.obj fa)) "Additional Metadata" = none →
      fp ≠ [] → 10240 < blobSize (jsonStringify (.obj fp)) →
      handleSubmitGate (some (.obj fa)) (some (.obj fp)) mode projectIdPresent urlPresent =
        .sizeError (sizeErrorMsg "Properties" (blobSize (jsonStringify (.obj fp)))) ∧
      jsIncludes (sizeErrorMsg "Properties" (blobSize (jsonStringify (.obj fp))))
        "Properties" = true) ∧
    (blobSize (jsonStringify (.obj fa)) ≤ 10240 →
      blobSize (jsonStringify (.obj fp)) ≤ 10240 →
      ∀ msg, handleSubmitGate (some (.obj fa)) (some (.obj fp)) mode projectIdPresent
        urlPresent ≠ .sizeError msg) := by
  have hmsg : ∀ (f r : String), jsIncludes (f ++ r) f = true := fun f r =>
    jsIncludes_append_self f r
  have hva : ∀ (fs : List (String × Json)) (name : String), fs ≠ [] →
      10240 < blobSize (jsonStringify (.obj fs)) →
      validateJsonSize (some (.obj fs)) name =
        some (sizeErrorMsg name (blobSize (jsonStringify (.obj fs)))) := by
    intro fs name hne hsz
    unfold validateJsonSize
    simp only []
    rw [if_pos ⟨rfl, by simpa [jsKeysCount] using List.length_pos.mpr hne⟩, if_pos hsz]
  have hvn : ∀ (fs : List (String × Json)) (name : String),
      blobSize (jsonStringify (.obj fs)) ≤ 10240 →
      validateJsonSize (some (.obj fs)) name = none := by
    intro fs name hsz
    unfold validateJsonSize
    simp only []
    by_cases hg : jsTruthy (.obj fs) = true ∧ 0 < jsKeysCount (.obj fs)
    · rw [if_pos hg, if_neg (by omega)]
    · rw [if_neg hg]
  refine ⟨?_, ?_, ?_⟩
  · intro hne hsz
    constructor
    · unfold handleSubmitGate
      rw [hva fa "Additional Metadata" hne hsz]
    · exact hmsg "Additional Metadata" _
  · intro hok hne hsz
    constructor
    · unfold handleSubmitGate
      rw [hok, hva fp "Properties" hne hsz]
    · exact hmsg "Properties" _
  · intro hsa hsp msg
    unfold handleSubmitGate
    rw [hvn fa "Additional Metadata" hsa, hvn fp "Properties" hsp]
    by_cases hc : mode = .create ∧ projectIdPresent = false
    · rw [if_pos hc]; exact fun h => by cases h
    · rw [if_neg hc]
      by_cases hu : urlPresent = false
      · rw [if_pos hu]; exact fun h => by cases h
      · rw [if_neg hu]; exact fun h => by cases h

/-- C1 witness: a single-field object with a 10300-byte value (10308
serialized bytes) blocks submission naming "Additional Metadata", and
two small objects pass the size check. -/
theorem handleSubmit_size_spec_witness :
    (bigMeta ≠ [] ∧ 10240 < blobSize (jsonStringify (.obj bigMeta)) ∧
      blobSize (jsonStringify (.obj [])) ≤ 10240) ∧
    (handleSubmitGate (some (.obj bigMeta)) none .create true true =
        .sizeError (sizeErrorMsg "Additional Metadata"
          (blobSize (jsonStringify (.obj bigMeta)))) ∧
      jsIncludes (sizeErrorMsg "Additional Metadata"
        (blobSize (jsonStringify (.obj bigMeta)))) "Additional Metadata" = true) ∧
    (∀ msg, handleSubmitGate (some (.obj ([] : List (String × Json))))
      (some (.obj ([] : List (String × Json)))) .create true true ≠ .sizeError msg) := by
  have hbig : 10240 < blobSize (jsonStringify (.obj bigMeta)) := by
    rw [blobSize_bigMeta]; omega
  have hne : bigMeta ≠ [] := by
    rw [show bigMeta = [("k", Json.str bigValue)] from rfl]
    exact List.cons_ne_nil _ _
  refine ⟨⟨hne, hbig, by decide⟩, ?_, ?_⟩
  · exact (handleSubmit_size_spec bigMeta [] none .create true true).1 hne hbig
  · exact (handleSubmit_size_spec [] [] none .create true true).2.2 (by decide) (by decide)

/-! ## C8: filtering, sorting and pagination of the link list -/

theorem insertLe_perm (le : α → α → Bool) (x : α) (l : List α) :
    (insertLe le x l).Perm (x :: l) := by
  induction l with
  | nil => exact List.Perm.refl _
  | cons y ys ih =>
      by_cases h : le x y = true
      · rw [insertLe, if_pos h]
      · rw [insertLe, if_neg h]
        exact (ih.cons y).trans (List.Perm.swap x y ys)

theorem stableSort_perm (le : α → α → Bool) (l : List α) : (stableSort le l).Perm l := by
  induction l with
  | nil => exact List.Perm.refl _
  | cons x xs ih => exact (insertLe_perm le x (stableSort le xs)).trans (ih.cons x)

theorem mem_stableSort (le : α → α → Bool) (l : List α) (a : α) :
    a ∈ stableSort le l ↔ a ∈ l :=
  (stableSort_perm le l).mem_iff

theorem serverMatches_imp (q : String) (l : Link) (h : serverMatches q l = true) :
    linkMatches q l = true := by
  unfold serverMatches at h
  unfold linkMatches
  rcases l with ⟨id, url, title, description, shortCode, projectId, clicks, created⟩
  cases title <;> cases description <;> simp_all [Bool.or_eq_true] <;> tauto

theorem mem_getLinks (be : Backend) (params : GetLinksParams) (l : Link)
    (hl : l ∈ getLinks be params) : l ∈ getLinksFiltered be params := by
  unfold getLinks at hl
  have h1 := List.mem_of_mem_take hl
  have h2 := List.mem_of_mem_drop h1
  unfold getLinksSorted at h2
  cases hs : params.sort with
  | none => rw [hs] at h2; exact h2
  | some fd =>
      rw [hs] at h2
      exact (mem_stableSort _ _ _).mp h2

theorem getLinksFiltered_search (be : Backend) (params : GetLinksParams) (l : Link)
    (hl : l ∈ getLinksFiltered be params) (q : String) (hq : params.search = some q)
    (hqne : q ≠ "") : serverMatches (jsToLower q) l = true := by
  unfold getLinksFiltered at hl
  rw [hq] at hl
  simp only [] at hl
  rw [if_pos hqne] at hl
  exact (List.mem_filter.mp hl).2

theorem getLinksFiltered_base (be : Backend) (params : GetLinksParams) (l : Link)
    (hl : l ∈ getLinksFiltered be params) : l ∈ getLinksBase be params := by
  unfold getLinksFiltered at hl
  cases hs : params.search with
  | none => rw [hs] at hl; exact hl
  | some q =>
      rw [hs] at hl
      simp only [] at hl
      by_cases hq : q ≠ ""
      · rw [if_pos hq] at hl; exact (List.mem_filter.mp hl).1
      · rw [if_neg hq] at hl; exact hl

theorem getLinksBase_project (be : Backend) (params : GetLinksParams) (l : Link)
    (pid : String) (hpid : params.projectId = some pid) (hne : pid ≠ "")
    (hl : l ∈ getLinksBase be params) : l.projectId = some pid := by
  unfold getLinksBase at hl
  rw [hpid] at hl
  obtain ⟨x, _, rfl⟩ := List.mem_map.mp hl
  show (transformLink (some pid) x).projectId = some pid
  unfold transformLink jsOrStr
  simp [hne]

/-- After any refetch, the client-side `applyFilters` is the identity on
the fetched page: every served link already satisfies the component's
search predicate and project filter. -/
theorem loadLinks_displayed_eq (be : Backend) (st : ListState) :
    displayedLinks (loadLinks be st) = getLinks be (loadParams st) := by
  show applyFilters (getLinks be (loadParams st))
      { query := st.query, projectFilter := st.projectFilter } = _
  rw [applyFilters_eq]
  have hq : st.query ≠ "" → ∀ l ∈ getLinks be (loadParams st),
      linkMatches (jsToLower st.query) l = true := by
    intro hqne l hl
    apply serverMatches_imp
    apply getLinksFiltered_search be (loadParams st) l
      (mem_getLinks be _ l hl) st.query _ hqne
    show (if st.query ≠ "" then some st.query else none) = some st.query
    rw [if_pos hqne]
  have hp : st.projectFilter ≠ "" → ∀ l ∈ getLinks be (loadParams st),
      decide (l.projectId = some st.projectFilter) = true := by
    intro hpne l hl
    simp only [decide_eq_true_eq]
    apply getLinksBase_project be (loadParams st) l st.projectFilter _ hpne
      (getLinksFiltered_base be _ l (mem_getLinks be _ l hl))
    show (if st.projectFilter ≠ "" then some st.projectFilter else none) = _
    rw [if_pos hpne]
  by_cases hpne : st.projectFilter ≠ ""
  · rw [if_pos hpne]
    by_cases hqne : st.query ≠ ""
    · rw [if_pos hqne, List.filter_eq_self.mpr (hq hqne), List.filter_eq_self.mpr (hp hpne)]
    · rw [if_neg hqne, List.filter_eq_self.mpr (hp hpne)]
  · rw [if_neg hpne]
    by_cases hqne : st.query ≠ ""
    · rw [if_pos hqne, List.filter_eq_self.mpr (hq hqne)]
    · rw [if_neg hqne]

/-- C8 amended: after a refetch (`loadLinks`, in particular after every
sort-header click), the displayed links are exactly the page slice —
first page, fixed size 10, since the component never passes a page or
limit — of the server-filtered and sorted link collection; a search or
project-filter change, by contrast, only re-runs `applyFilters` over the
already-fetched page (recomputed in full each time, but with no refetch
and no new slice). -/
theorem pagination_spec (be : Backend) (f q p : String) (st : ListState) :
    displayedLinks (loadLinks be st) = getLinks be (loadParams st) ∧
    displayedLinks (onSortClick be f st) =
      getLinks be (loadParams
        { st with
          sortField := (handleSort f { field := st.sortField, direction := st.sortDir }).field,
          sortDir := (handleSort f { field := st.sortField, direction := st.sortDir }).direction }) ∧
    getLinks be (loadParams st) = (getLinksSorted be (loadParams st)).take 10 ∧
    getLinksSorted be (loadParams st) =
      sortLinks st.sortField st.sortDir (getLinksFiltered be (loadParams st)) ∧
    displayedLinks (onSearchInput q st) =
      applyFilters st.links { query := q, projectFilter := st.projectFilter } ∧
    displayedLinks (onProjectFilterChange p st) =
      applyFilters st.links { query := st.query, projectFilter := p } :=
  ⟨loadLinks_displayed_eq be st, loadLinks_displayed_eq be _, rfl, rfl, rfl, rfl⟩

/-- C8 counterexample: with eleven links where only the last-sorted one
matches the search "a", the search change re-filters the fetched
ten-link page to the empty list, while the page slice over the filtered
and sorted collection would be exactly that matching link — so a search
change does not recompute the slice. -/
theorem pagination_counterexample :
    displayedLinks (onSearchInput "a" (loadLinks cxBackend cxListState)) = [] ∧
    (sortLinks "createdAt" .desc
      ((cxLinks.map (transformLink (some "p"))).filter
        (linkMatches (jsToLower "a")))).take 10 =
      [transformLink (some "p") (cxLink 11 "a")] ∧
    ([] : List Link) ≠ [transformLink (some "p") (cxLink 11 "a")] := by
  refine ⟨by decide, by decide, by decide⟩

end RowtUI
